import Mathlib

/-!
Verification of the KMCLib `LatticeTrajectory` writer
(`src/python/src/KMCLib/Utilities/Trajectory/LatticeTrajectory.py`).

The Python class is embedded shallowly:
* the writer's instance fields become the structure `TrajState`;
* the filesystem and the MPI event trace become the structure `World`
  (`file` is the trajectory file's textual content, `written` is the
  record-level view of the data appended to the file, `events` is the
  observable I/O / synchronisation trace);
* `time.time()` is an explicit `now : ℚ` argument to each operation,
  `time.ctime()` an explicit string, `sys.getsizeof` an explicit
  `sizeof` function argument, and `MPICommons.isMaster()` an explicit
  `master : Bool` argument;
* a possible failure of `open` on the master is modelled by the
  `ioFail : Bool` argument; Python exceptions become an
  `Option TrajErr` component of each operation's result.

Simulation times are modelled as rationals; the C-style `"%f"`/`"%15.6f"`
formats are exact on every value used in the development (all are exact
multiples of `10⁻⁶`).
-/

/-- Seven spaces: the continuation indent used for the `sites` block
(`indent = " "*7` in `__init__`). -/
def indent7 : String := "       "

/-- Fourteen spaces: the continuation indent used for wrapped `types`
rows (`indent = " "*14` in `__writeToFile`). -/
def indent14 : String := "              "

/-- Left-pads a string with zeros to the given width (used for the
six fractional digits of the fixed-point format). -/
def padZeros (width : Nat) (s : String) : String :=
  String.mk (List.replicate (width - s.length) '0') ++ s

/-- Left-pads a string with spaces to the given width (the field width
of the C-style format `"%15.6f"`). -/
def padSpaces (width : Nat) (s : String) : String :=
  String.mk (List.replicate (width - s.length) ' ') ++ s

/-- Models the C-style format `"%f"` (six fractional digits) on a
rational number: the microseconds value is `⌊q * 10^6⌋`, written as the
integer division `q.num * 10^6 / q.den` so that it evaluates by kernel
reduction (`fmt6_micros_eq_floor` below proves the two equal).  It is
exact whenever `q * 10^6` is an integer, which holds for every value
formatted in this development. -/
def fmt6 (q : ℚ) : String :=
  let n : Int := q.num * 1000000 / (q.den : Int)
  let a : Nat := n.natAbs
  let sign : String := if n < 0 then "-" else ""
  sign ++ toString (a / 1000000) ++ "." ++ padZeros 6 (toString (a % 1000000))

/-- Models the C-style format `"%15.6f"` used for site coordinates. -/
def fmt15_6 (q : ℚ) : String := padSpaces 15 (fmt6 q)

/-- Renders one site as `"[%15.6f,%15.6f,%15.6f]"`. -/
def siteTriple (s : ℚ × ℚ × ℚ) : String :=
  "[" ++ fmt15_6 s.1 ++ "," ++ fmt15_6 s.2.1 ++ "," ++ fmt15_6 s.2.2 ++ "]"

/-- The loop body of the `sites` rendering in `__init__`: the last site
is followed by `"]\n"`, every other one by `",\n"` and the 7-space
indent. -/
def sitesLoop : List (ℚ × ℚ × ℚ) → String
  | [] => ""
  | [s] => siteTriple s ++ "]\n"
  | s :: rest => siteTriple s ++ ",\n" ++ indent7 ++ sitesLoop rest

/-- The whole `sites` block written by `__init__`. -/
def sitesString (sites : List (ℚ × ℚ × ℚ)) : String :=
  "sites=[" ++ sitesLoop sites

/-- The complete file header written by `__init__` on the master
process (preamble, version, creation time, sites, and the three empty
list declarations). -/
def headerString (sites : List (ℚ × ℚ × ℚ)) (ctime : String) : String :=
  "# KMCLib Trajectory\n" ++
  "version=\"2013.1.0\"\n" ++
  "creation_time=\"" ++ ctime ++ "\"\n" ++
  sitesString sites ++
  "times=[]\n" ++
  "steps=[]\n" ++
  "types=[]\n"

/-- One `times.append(%f)` line of `__writeToFile`. -/
def encodeTimesLine (t : ℚ) : String := "times.append(" ++ fmt6 t ++ ")\n"

/-- One `steps.append(%i)` line of `__writeToFile`. -/
def encodeStepsLine (n : Int) : String := "steps.append(" ++ toString n ++ ")\n"

/-- The loop of `__writeToFile` over `types[:-1]`: each element `t`
adds `len(t) + 2` to the internal row-length counter and appends
`"\"" ++ t ++ "\","` to the accumulator; when the counter reaches `70`
a newline and the 14-space indent are emitted and the counter is reset
to `14`. -/
def typesLoop : List String → String → Nat → String
  | [], acc, _ => acc
  | t :: ts, acc, row_length =>
    let rl := row_length + t.length + 2
    let acc1 := acc ++ "\"" ++ t ++ "\","
    if 70 ≤ rl then typesLoop ts (acc1 ++ "\n" ++ indent14) 14
    else typesLoop ts acc1 rl

/-- The `types.append([...])` statement of `__writeToFile`.  Python
raises `IndexError` on `types[-1]` when the list is empty; this is the
`none` case. -/
def typesString (types : List String) : Option String :=
  match types.getLast? with
  | none => none
  | some last =>
    some (typesLoop types.dropLast "types.append([" 14 ++ "\"" ++ last ++ "\"])\n")

/-- Errors the Python code can raise during a flush: `indexError`
models the `IndexError` from `types[-1]` on an empty types list,
`ioError` models a failure of `open` on the master. -/
inductive TrajErr where
  | indexError : TrajErr
  | ioError : TrajErr
deriving DecidableEq, Repr

/-- Observable synchronisation / I/O events of one process. -/
inductive Event where
  | fileWrite : Event
  | barrier : Event
deriving DecidableEq, Repr

/-- The instance fields of a `LatticeTrajectory` object (the private
double-underscore attributes of the Python class). -/
structure TrajState where
  trajectory_filename : String
  max_buffer_size : Nat
  max_buffer_time : ℚ
  types_buffer : List (List String)
  simulation_time_buffer : List ℚ
  step_buffer : List Int
  time_last_dump : ℚ
deriving DecidableEq, Repr

/-- The world outside the object: the trajectory file's content, the
record-level view of what has been appended to it, and the process's
event trace. -/
structure World where
  file : String
  written : List (ℚ × Int × List String)
  events : List Event
deriving DecidableEq, Repr

/-- The elapsed-time trigger of `append`: the source's comparison
`(time.time() - self.__time_last_dump) > self.__max_buffer_time`,
written in cross-multiplied integer form (the denominators are
positive) so that it evaluates by kernel reduction;
`elapsedGt_iff` below proves it equivalent to
`max_buffer_time < now - time_last_dump`. -/
def elapsedGt (now time_last_dump max_buffer_time : ℚ) : Bool :=
  decide (max_buffer_time.num * ((now.den : Int) * time_last_dump.den) <
    (now.num * time_last_dump.den - time_last_dump.num * now.den) *
      max_buffer_time.den)

namespace LatticeTrajectory

/-- Constructor `__init__`: fills in the buffer-size and buffer-time
defaults, lets the master truncate the file and write the header, has
every process reach the barrier, initialises the three empty buffers
and sets `self.__time_last_dump = 0.0`.  `f0` is the file's previous
content (kept when the process is not the master). -/
def init (master : Bool) (trajectory_filename : String)
    (sites : List (ℚ × ℚ × ℚ)) (max_buffer_size : Option Nat)
    (max_buffer_time : Option ℚ) (ctime : String) (f0 : String) :
    TrajState × World :=
  let mbs := max_buffer_size.getD (1024 * 1024 * 10)
  let mbt := max_buffer_time.getD 1800
  ({ trajectory_filename := trajectory_filename
     max_buffer_size := mbs
     max_buffer_time := mbt
     types_buffer := []
     simulation_time_buffer := []
     step_buffer := []
     time_last_dump := 0 },
   { file := if master then headerString sites ctime else f0
     written := []
     events := (if master then [Event.fileWrite] else []) ++ [Event.barrier] })

/-- The write loop of `__writeToFile`: for each `(sim_time, step,
types)` record of the zipped buffers the `times` and `steps` lines are
written, then the `types` statement is built; an empty types list
raises `IndexError` after the first two lines of its record have
already been written.  Returns the file content, the record-level
view, and the error if any. -/
def writeLoop : List (ℚ × Int × List String) → String →
    List (ℚ × Int × List String) →
    String × List (ℚ × Int × List String) × Option TrajErr
  | [], f, wr => (f, wr, none)
  | (simTime, step, types) :: rest, f, wr =>
    let f1 := f ++ encodeTimesLine simTime ++ encodeStepsLine step
    match typesString types with
    | none => (f1, wr, some TrajErr.indexError)
    | some ts => writeLoop rest (f1 ++ ts) (wr ++ [(simTime, step, types)])

/-- Method `__writeToFile`: the master opens the file for append
(which can fail, `ioFail`) and writes every zipped record; every
process then reaches the barrier and sets `self.__time_last_dump` to
the current time.  An exception on the master propagates before the
barrier and before the timestamp update. -/
def writeToFile (master ioFail : Bool) (now : ℚ)
    (simulation_time_buffer : List ℚ) (step_buffer : List Int)
    (types_buffer : List (List String)) (s : TrajState) (w : World) :
    Option TrajErr × TrajState × World :=
  if master then
    if ioFail then (some TrajErr.ioError, s, w)
    else
      let recs := simulation_time_buffer.zip (step_buffer.zip types_buffer)
      let out := writeLoop recs w.file w.written
      match out.2.2 with
      | some e =>
        (some e, s,
         { file := out.1, written := out.2.1
           events := w.events ++ [Event.fileWrite] })
      | none =>
        (none, { s with time_last_dump := now },
         { file := out.1, written := out.2.1
           events := w.events ++ [Event.fileWrite, Event.barrier] })
  else
    (none, { s with time_last_dump := now },
     { w with events := w.events ++ [Event.barrier] })

/-- Method `flush`: writes the buffers to file when all three are
non-empty and then resets them; an empty buffer makes `flush` a
complete no-op.  An exception from `__writeToFile` propagates before
the buffers are reset. -/
def flush (master ioFail : Bool) (now : ℚ) (s : TrajState) (w : World) :
    Option TrajErr × TrajState × World :=
  if 0 < s.simulation_time_buffer.length ∧ 0 < s.step_buffer.length ∧
      0 < s.types_buffer.length then
    match writeToFile master ioFail now s.simulation_time_buffer
        s.step_buffer s.types_buffer s w with
    | (some e, s1, w1) => (some e, s1, w1)
    | (none, s1, w1) =>
      (none,
       { s1 with simulation_time_buffer := []
                 step_buffer := []
                 types_buffer := [] }, w1)
  else (none, s, w)

/-- Method `append`: stores the record in the three buffers, then
flushes when `sys.getsizeof` of the types buffer exceeds
`max_buffer_size` or the wall-clock time elapsed since
`__time_last_dump` exceeds `max_buffer_time`. -/
def append (master ioFail : Bool) (sizeof : List (List String) → Nat)
    (now simulation_time : ℚ) (step : Int) (types : List String)
    (s : TrajState) (w : World) : Option TrajErr × TrajState × World :=
  let s1 := { s with types_buffer := s.types_buffer ++ [types]
                     simulation_time_buffer :=
                       s.simulation_time_buffer ++ [simulation_time]
                     step_buffer := s.step_buffer ++ [step] }
  let types_size := sizeof s1.types_buffer
  if s.max_buffer_size < types_size ∨
      elapsedGt now s.time_last_dump s.max_buffer_time = true then
    flush master ioFail now s1 w
  else (none, s1, w)

end LatticeTrajectory

/-- One call made by the simulation driver: either an `append` (with
the wall-clock time at which it happens) or an explicit `flush`. -/
inductive Op where
  | appendOp (now simulation_time : ℚ) (step : Int) (types : List String) : Op
  | flushOp (now : ℚ) : Op
deriving DecidableEq, Repr

/-- Runs a single driver call against the writer. -/
def runOp (master ioFail : Bool) (sizeof : List (List String) → Nat) :
    Op → TrajState → World → Option TrajErr × TrajState × World
  | Op.appendOp now simulation_time step types, s, w =>
    LatticeTrajectory.append master ioFail sizeof now simulation_time step
      types s w
  | Op.flushOp now, s, w => LatticeTrajectory.flush master ioFail now s w

/-- Runs a list of driver calls; a raised error aborts the run. -/
def runOps (master ioFail : Bool) (sizeof : List (List String) → Nat) :
    List Op → TrajState → World → Option TrajErr × TrajState × World
  | [], s, w => (none, s, w)
  | op :: rest, s, w =>
    match runOp master ioFail sizeof op s w with
    | (none, s1, w1) => runOps master ioFail sizeof rest s1 w1
    | (some e, s1, w1) => (some e, s1, w1)

/-- The step numbers carried by the `append` calls of a driver
sequence, in order. -/
def opSteps : List Op → List Int
  | [] => []
  | Op.appendOp _ _ n _ :: rest => n :: opSteps rest
  | Op.flushOp _ :: rest => opSteps rest

/-- Holds when both buffer-length components of the writer state agree
(the three parallel sequences have equal length). -/
def buffersAligned (s : TrajState) : Prop :=
  s.simulation_time_buffer.length = s.step_buffer.length ∧
  s.step_buffer.length = s.types_buffer.length

/-- Splits a character list on a separator character; like
`String.splitOn` for a one-character separator, the separator is
consumed and the result is never empty. -/
def splitOnChar (c : Char) : List Char → List (List Char)
  | [] => [[]]
  | x :: xs =>
    if x = c then [] :: splitOnChar c xs
    else
      match splitOnChar c xs with
      | [] => [[x]]
      | y :: ys => (x :: y) :: ys

/-- Splits a character list on the two-character separator `"],"`
(the separator between two rendered sites). -/
def splitOnBracketComma : List Char → List (List Char)
  | [] => [[]]
  | [x] => [[x]]
  | x :: y :: rest =>
    if x = ']' ∧ y = ',' then [] :: splitOnBracketComma rest
    else
      match splitOnBracketComma (y :: rest) with
      | [] => [[x]]
      | z :: zs => (x :: z) :: zs

/-- Reads a non-empty run of decimal digits as a natural number. -/
def digitsToNatAux : List Char → Nat → Option Nat
  | [], acc => some acc
  | c :: cs, acc =>
    if c.isDigit then digitsToNatAux cs (acc * 10 + (c.toNat - 48)) else none

/-- Reads a non-empty all-digit character list as a natural number. -/
def digitsToNat (cs : List Char) : Option Nat :=
  if cs = [] then none else digitsToNatAux cs 0

/-- Builds the rational `±(a / d)` (for `d ≠ 0`) in lowest terms by
explicit gcd normalization, so that it evaluates by kernel reduction;
`decimalRat_eq_div` below gives its arithmetic value. -/
def decimalRat (neg : Bool) (a d : Nat) (hd : d ≠ 0) : ℚ :=
  let g := a.gcd d
  have hg : g ≠ 0 := fun h => hd (Nat.eq_zero_of_gcd_eq_zero_right h)
  have hle : g ≤ d :=
    Nat.le_of_dvd (Nat.pos_of_ne_zero hd) (Nat.gcd_dvd_right a d)
  { num := if neg then -((a / g : Nat) : Int) else ((a / g : Nat) : Int)
    den := d / g
    den_nz := (Nat.div_ne_zero_iff hg).mpr hle
    reduced := by
      have hcop : (a / g).Coprime (d / g) :=
        Nat.coprime_div_gcd_div_gcd (Nat.pos_of_ne_zero hg)
      cases neg <;> simpa using hcop }

/-- Modelled from the spec: the repository contains no trajectory-file
reader (spec section 1 lists downstream reader tooling as out of
scope), and spec section 6 describes the format's numbers as C-style
fixed-point decimals, possibly space-padded.  This reads an optionally
space-padded, optionally signed fixed-point decimal, with value
`±(ip + f / 10^len)` built through `decimalRat`. -/
def parseFixedChars (cs0 : List Char) : Option ℚ :=
  let cs1 := cs0.dropWhile (· == ' ')
  let p : Bool × List Char :=
    match cs1 with
    | '-' :: rest => (true, rest)
    | _ => (false, cs1)
  match splitOnChar '.' p.2 with
  | [ip, fp] => do
    let i ← digitsToNat ip
    let f ← digitsToNat fp
    pure (decimalRat p.1 (i * 10 ^ fp.length + f) (10 ^ fp.length)
      (pow_ne_zero _ (by decide)))
  | [ip] => do
    let i ← digitsToNat ip
    pure (decimalRat p.1 i 1 one_ne_zero)
  | _ => none

/-- Modelled from the spec: reads an optionally signed decimal integer
(the payload of a `steps.append` statement, spec section 6). -/
def parseIntChars : List Char → Option Int
  | '-' :: rest => (digitsToNat rest).map (fun n => -(n : Int))
  | cs => (digitsToNat cs).map (fun n => (n : Int))

/-- Modelled from the spec: reads one double-quoted type label (spec
section 6: labels are wrapped in double quotes with no escaping). -/
def parseQuotedChars : List Char → Option String
  | '"' :: rest =>
    match rest.reverse with
    | '"' :: mid => some (String.mk mid.reverse)
    | _ => none
  | _ => none

/-- Modelled from the spec: reads the comma-separated quoted labels
inside a `types.append([...])` statement. -/
def parseTypesPayload (cs : List Char) : Option (List String) :=
  (splitOnChar ',' cs).mapM parseQuotedChars

/-- Modelled from the spec: reads one rendered site, a bracketed
triple of fixed-point coordinates. -/
def parseSiteChunk (cs : List Char) : Option (ℚ × ℚ × ℚ) :=
  let cs1 := match cs with | '[' :: r => r | _ => cs
  let cs2 := match cs1.reverse with | ']' :: r => r.reverse | _ => cs1
  match splitOnChar ',' cs2 with
  | [a, b, c] => do
    let x ← parseFixedChars a
    let y ← parseFixedChars b
    let z ← parseFixedChars c
    pure (x, y, z)
  | _ => none

/-- Modelled from the spec: reads the payload of the `sites=` line, a
nested numeric array literal. -/
def parseSitesPayload (cs : List Char) : Option (List (ℚ × ℚ × ℚ)) :=
  match cs with
  | '[' :: rest =>
    match rest.reverse with
    | ']' :: mid => (splitOnBracketComma mid.reverse).mapM parseSiteChunk
    | _ => none
  | _ => none

/-- Drops a single trailing `)` (the close of a `times.append` or
`steps.append` statement). -/
def stripLastParen (cs : List Char) : Option (List Char) :=
  match cs.reverse with
  | ')' :: r => some r.reverse
  | _ => none

/-- Drops a trailing `])` (the close of a `types.append` statement). -/
def stripBracketParen (cs : List Char) : Option (List Char) :=
  match cs.reverse with
  | ')' :: ']' :: r => some r.reverse
  | _ => none

/-- Joins each physical line that starts with a space onto the line
before it (dropping the leading indent): the format's continuation
lines are exactly the indented ones. -/
def mergeLinesAux : List (List Char) → List Char → List (List Char)
  | [], cur => [cur]
  | l :: rest, cur =>
    match l with
    | ' ' :: _ => mergeLinesAux rest (cur ++ l.dropWhile (· == ' '))
    | _ => cur :: mergeLinesAux rest l

/-- Merges continuation lines into their logical statement line. -/
def mergeLines : List (List Char) → List (List Char)
  | [] => []
  | l :: rest => mergeLinesAux rest l

/-- The result of reading a trajectory file back: the four collections
the file's statements build up. -/
structure ParsedTrajectory where
  sites : List (ℚ × ℚ × ℚ)
  times : List ℚ
  steps : List Int
  types : List (List String)
deriving DecidableEq, Repr

/-- Modelled from the spec: executes one logical statement line of the
trajectory file against the accumulated collections, as the
scripting-style reader of spec section 4.2 / 6 would (comments and the
version / creation-time metadata are skipped, the empty-list
declarations reset the collections, and each append statement extends
the matching collection). -/
def parseLine (p : ParsedTrajectory) (l : List Char) :
    Option ParsedTrajectory :=
  if l = [] then some p
  else if List.isPrefixOf "#".data l then some p
  else if List.isPrefixOf "version=".data l then some p
  else if List.isPrefixOf "creation_time=".data l then some p
  else if l = "times=[]".data then some { p with times := [] }
  else if l = "steps=[]".data then some { p with steps := [] }
  else if l = "types=[]".data then some { p with types := [] }
  else if List.isPrefixOf "sites=".data l then
    (parseSitesPayload (l.drop 6)).map (fun ss => { p with sites := ss })
  else if List.isPrefixOf "times.append(".data l then do
    let body ← stripLastParen (l.drop 13)
    let v ← parseFixedChars body
    pure { p with times := p.times ++ [v] }
  else if List.isPrefixOf "steps.append(".data l then do
    let body ← stripLastParen (l.drop 13)
    let v ← parseIntChars body
    pure { p with steps := p.steps ++ [v] }
  else if List.isPrefixOf "types.append([".data l then do
    let body ← stripBracketParen (l.drop 14)
    let tys ← parseTypesPayload body
    pure { p with types := p.types ++ [tys] }
  else none

/-- Modelled from the spec: reads a whole trajectory file by splitting
it into physical lines, merging continuation lines, and executing each
logical statement in order. -/
def parseTrajectory (file : String) : Option ParsedTrajectory :=
  (mergeLines (splitOnChar '\n' file.data)).foldlM parseLine
    ⟨[], [], [], []⟩

/-- Renders a list of labels as the unbroken comma-separated
quoted-string sequence `"t1","t2",...,"tn"` (no trailing comma). -/
def quotedJoin : List String → String
  | [] => ""
  | [t] => "\"" ++ t ++ "\""
  | t :: ts => "\"" ++ t ++ "\"," ++ quotedJoin ts

/-- Concatenates rendered rows back together, dropping the 14-column
continuation indent from every row after the first. -/
def stripJoinRows : List (List Char) → List Char
  | [] => []
  | r :: rs => r ++ (rs.map (List.drop 14)).flatten

/-- Row-level image of `typesLoop`: the same recursion, but returning
the list of completed rows (without their newlines) and the still-open
row, instead of the flat string. -/
def rowsLoop : List String → List Char → Nat →
    List (List Char) × List Char
  | [], cur, _ => ([], cur)
  | t :: ts, cur, row_length =>
    let rl := row_length + t.length + 2
    let cur1 := cur ++ ('"' :: (t.data ++ ['"', ',']))
    if 70 ≤ rl then
      let out := rowsLoop ts indent14.data 14
      (cur1 :: out.1, out.2)
    else rowsLoop ts cur1 rl

/-- Flattens completed rows (each followed by a newline) in front of
the still-open row; the inverse view of `splitOnChar` applied to a
newline. -/
def joinRows (p : List (List Char) × List Char) : List Char :=
  (p.1.map (· ++ ['\n'])).flatten ++ p.2

/-- The characters the `typesLoop` recursion appends for a list of
labels: each label quoted and followed by a comma. -/
def quotedCommas : List String → List Char
  | [] => []
  | t :: ts => '"' :: (t.data ++ ['"', ',']) ++ quotedCommas ts

/-- Checks whether a trace contains a `barrier` event. -/
def containsBarrier : List Event → Bool
  | [] => false
  | Event.barrier :: _ => true
  | Event.fileWrite :: rest => containsBarrier rest

/-- Counts the `barrier` events of a trace. -/
def barrierCount : List Event → Nat
  | [] => 0
  | Event.barrier :: rest => barrierCount rest + 1
  | Event.fileWrite :: rest => barrierCount rest

/-- Checks that every `fileWrite` event of a trace is followed, later
in the trace, by a `barrier` event. -/
def barrierAfterWrites : List Event → Bool
  | [] => true
  | Event.fileWrite :: rest =>
    containsBarrier rest && barrierAfterWrites rest
  | Event.barrier :: rest => barrierAfterWrites rest

/-- Holds of an `append` driver call whose record carries at least one
type label (a `flush` call satisfies it trivially). -/
def opTypesNonempty : Op → Bool
  | Op.appendOp _ _ _ types => !types.isEmpty
  | Op.flushOp _ => true

/-! ## Theorems -/

/-- The integer comparison in `elapsedGt` is exactly the source's
`(now - time_last_dump) > max_buffer_time`. -/
theorem elapsedGt_iff (now tld mbt : ℚ) :
    elapsedGt now tld mbt = true ↔ mbt < now - tld := by
  have hndp : (0 : ℚ) < (now.den : ℚ) := by exact_mod_cast now.pos
  have htdp : (0 : ℚ) < (tld.den : ℚ) := by exact_mod_cast tld.pos
  have hmdp : (0 : ℚ) < (mbt.den : ℚ) := by exact_mod_cast mbt.pos
  rw [elapsedGt, decide_eq_true_iff]
  conv_rhs => rw [← Rat.num_div_den mbt, ← Rat.num_div_den now,
    ← Rat.num_div_den tld]
  rw [div_sub_div _ _ (ne_of_gt hndp) (ne_of_gt htdp),
    div_lt_div_iff₀ hmdp (mul_pos hndp htdp),
    show ((now.num : ℚ) * (tld.den : ℚ) - (now.den : ℚ) * (tld.num : ℚ)) *
        (mbt.den : ℚ) =
      (((now.num * tld.den - tld.num * now.den) * mbt.den : ℤ) : ℚ) by
        push_cast; ring,
    show (mbt.num : ℚ) * ((now.den : ℚ) * (tld.den : ℚ)) =
      ((mbt.num * ((now.den : Int) * tld.den) : ℤ) : ℚ) by push_cast; ring,
    Int.cast_lt]

/-- The microseconds integer computed by `fmt6` is the floor of
`q * 10^6`, as the C format `"%f"` truncated to six digits demands. -/
theorem fmt6_micros_eq_floor (q : ℚ) :
    q.num * 1000000 / (q.den : Int) = ⌊q * (1000000 : ℚ)⌋ := by
  rw [← Rat.floor_intCast_div_natCast (q.num * 1000000) q.den]
  congr 1
  push_cast
  conv_rhs => rw [← Rat.num_div_den q]
  ring

/-- The rational built by `decimalRat` has the arithmetic value
`±(a / d)`. -/
theorem decimalRat_eq_div (neg : Bool) (a d : Nat) (hd : d ≠ 0) :
    decimalRat neg a d hd = (if neg then -1 else 1) * ((a : ℚ) / (d : ℚ)) := by
  have hg : a.gcd d ≠ 0 := fun h => hd (Nat.eq_zero_of_gcd_eq_zero_right h)
  have hgq : ((a.gcd d : ℕ) : ℚ) ≠ 0 := Nat.cast_ne_zero.mpr hg
  have hdq : ((d : ℕ) : ℚ) ≠ 0 := Nat.cast_ne_zero.mpr hd
  have ha : ((a / a.gcd d : ℕ) : ℚ) = (a : ℚ) / (a.gcd d : ℚ) :=
    Nat.cast_div (Nat.gcd_dvd_left a d) hgq
  have hdd : ((d / a.gcd d : ℕ) : ℚ) = (d : ℚ) / (a.gcd d : ℚ) :=
    Nat.cast_div (Nat.gcd_dvd_right a d) hgq
  unfold decimalRat
  dsimp only
  rw [Rat.mk'_eq_divInt, Rat.divInt_eq_div]
  cases neg
  · rw [if_neg (by decide), if_neg (by decide), Int.cast_natCast,
      Int.cast_natCast, ha, hdd, one_mul, div_div_div_cancel_right₀ hgq]
  · rw [if_pos (by decide), if_pos (by decide), Int.cast_neg,
      Int.cast_natCast, Int.cast_natCast, ha, hdd, neg_div, neg_one_mul,
      div_div_div_cancel_right₀ hgq]

/-- The state built by `__init__` has empty buffers and a zero
timestamp, whatever the arguments. -/
theorem init_state (master : Bool) (fn : String) (sites : List (ℚ × ℚ × ℚ))
    (mbs : Option Nat) (mbt : Option ℚ) (ct f0 : String) :
    (LatticeTrajectory.init master fn sites mbs mbt ct f0).1.types_buffer = [] ∧
    (LatticeTrajectory.init master fn sites mbs mbt ct f0).1.simulation_time_buffer = [] ∧
    (LatticeTrajectory.init master fn sites mbs mbt ct f0).1.step_buffer = [] ∧
    (LatticeTrajectory.init master fn sites mbs mbt ct f0).1.time_last_dump = 0 := by
  simp [LatticeTrajectory.init]

/-- C1 is false on the code: `__init__` sets `self.__time_last_dump = 0.0`,
not the construction wall-clock time.  Constructing at wall-clock time
1000 with `max_buffer_time = 500`, the timestamp is 0 (not 1000), and a
first `append` at wall-clock 1200 — only 200 s after construction, so
the claim predicts no flush — does flush (the buffers come back
empty), because the elapsed-time check computes `1200 - 0 > 500`. -/
theorem C1_counterexample :
    (LatticeTrajectory.init true "traj" [(0, 0, 0)] none (some 500) "ct" "").1.time_last_dump ≠ 1000 ∧
    (LatticeTrajectory.init true "traj" [(0, 0, 0)] none (some 500) "ct" "").1.time_last_dump = 0 ∧
    (LatticeTrajectory.append true false (fun _ => 0) 1200 3 7 ["A"]
      (LatticeTrajectory.init true "traj" [(0, 0, 0)] none (some 500) "ct" "").1
      (LatticeTrajectory.init true "traj" [(0, 0, 0)] none (some 500) "ct" "").2).2.1.step_buffer = [] := by
  decide

/-- C1 amended: after `Construct` returns, the buffer is empty and
`last_flush_timestamp` is 0.0 (not the construction time), so the first
append's elapsed-time check measures absolute wall-clock time (seconds
since the epoch), not time elapsed since construction. -/
theorem C1_amended (master : Bool) (fn : String) (sites : List (ℚ × ℚ × ℚ))
    (mbs : Option Nat) (mbt : Option ℚ) (ct f0 : String)
    (sizeof : List (List String) → Nat) (now simulation_time : ℚ)
    (step : Int) (types : List String) (w : World) :
    (LatticeTrajectory.init master fn sites mbs mbt ct f0).1.types_buffer = [] ∧
    (LatticeTrajectory.init master fn sites mbs mbt ct f0).1.simulation_time_buffer = [] ∧
    (LatticeTrajectory.init master fn sites mbs mbt ct f0).1.step_buffer = [] ∧
    (LatticeTrajectory.init master fn sites mbs mbt ct f0).1.time_last_dump = 0 ∧
    (LatticeTrajectory.append master false sizeof now simulation_time step types
        (LatticeTrajectory.init master fn sites mbs mbt ct f0).1 w =
      if (LatticeTrajectory.init master fn sites mbs mbt ct f0).1.max_buffer_size < sizeof [types] ∨
          (LatticeTrajectory.init master fn sites mbs mbt ct f0).1.max_buffer_time < now - 0 then
        LatticeTrajectory.flush master false now
          { (LatticeTrajectory.init master fn sites mbs mbt ct f0).1 with
              types_buffer := [types]
              simulation_time_buffer := [simulation_time]
              step_buffer := [step] } w
      else
        (none,
         { (LatticeTrajectory.init master fn sites mbs mbt ct f0).1 with
             types_buffer := [types]
             simulation_time_buffer := [simulation_time]
             step_buffer := [step] }, w)) := by
  refine ⟨rfl, rfl, rfl, rfl, ?_⟩
  simp only [LatticeTrajectory.init, LatticeTrajectory.append]
  exact if_congr (or_congr Iff.rfl (elapsedGt_iff now 0 _)) rfl rfl

/-- C2: `append` first stores the record in the three buffers, then
calls `flush` exactly when the estimated size of the types buffer
exceeds `max_buffer_size` or the wall-clock time elapsed since
`last_flush_timestamp` exceeds `max_buffer_time`; otherwise it returns
the extended buffers with the world (file, record view, event trace)
untouched. -/
theorem C2_append_policy (master ioFail : Bool)
    (sizeof : List (List String) → Nat) (now simulation_time : ℚ)
    (step : Int) (types : List String) (s : TrajState) (w : World) :
    (¬ (sizeof (s.types_buffer ++ [types]) > s.max_buffer_size ∨
        now - s.time_last_dump > s.max_buffer_time) →
      LatticeTrajectory.append master ioFail sizeof now simulation_time step types s w =
        (none,
         { s with types_buffer := s.types_buffer ++ [types]
                  simulation_time_buffer := s.simulation_time_buffer ++ [simulation_time]
                  step_buffer := s.step_buffer ++ [step] }, w)) ∧
    ((sizeof (s.types_buffer ++ [types]) > s.max_buffer_size ∨
        now - s.time_last_dump > s.max_buffer_time) →
      LatticeTrajectory.append master ioFail sizeof now simulation_time step types s w =
        LatticeTrajectory.flush master ioFail now
          { s with types_buffer := s.types_buffer ++ [types]
                   simulation_time_buffer := s.simulation_time_buffer ++ [simulation_time]
                   step_buffer := s.step_buffer ++ [step] } w) := by
  constructor <;> intro h <;>
    simp only [gt_iff_lt] at h <;>
    simp [LatticeTrajectory.append, elapsedGt_iff, h]

/-- C7: a `flush` with an empty buffer is a complete no-op: no error,
no file or event-trace side effect, no buffer change, and in
particular `last_flush_timestamp` is not refreshed. -/
theorem C7_empty_flush (master ioFail : Bool) (now : ℚ) (s : TrajState)
    (w : World)
    (h : s.simulation_time_buffer = [] ∧ s.step_buffer = [] ∧
      s.types_buffer = []) :
    LatticeTrajectory.flush master ioFail now s w = (none, s, w) := by
  obtain ⟨h1, h2, h3⟩ := h
  simp [LatticeTrajectory.flush, h1, h2, h3]

/-- Witness for C7 at a concrete freshly emptied writer state. -/
theorem C7_empty_flush_witness :
    LatticeTrajectory.flush true false 5
      ⟨"traj", 10, 30, [], [], [], 2⟩ ⟨"header", [], [Event.barrier]⟩ =
      (none, ⟨"traj", 10, 30, [], [], [], 2⟩,
       ⟨"header", [], [Event.barrier]⟩) :=
  C7_empty_flush true false 5 _ _ ⟨rfl, rfl, rfl⟩

/-- C5: the concrete round trip.  Constructing with sites
`[[0,0,0],[1,0,0]]`, appending `(0.0, 0, ["A","B"])` and
`(1.0, 1, ["B","A"])`, and flushing, the resulting file parses back to
exactly those sites, times, steps and types. -/
theorem C5_round_trip :
    parseTrajectory
      (runOps true false (fun _ => 0)
        [Op.appendOp 0 0 0 ["A", "B"], Op.appendOp 0 1 1 ["B", "A"],
         Op.flushOp 0]
        (LatticeTrajectory.init true "traj" [(0, 0, 0), (1, 0, 0)] none none "ct" "").1
        (LatticeTrajectory.init true "traj" [(0, 0, 0), (1, 0, 0)] none none "ct" "").2).2.2.file =
      some ⟨[(0, 0, 0), (1, 0, 0)], [0, 1], [0, 1],
            [["A", "B"], ["B", "A"]]⟩ := by
  decide

/-- C8 is false on the code as far as the row-length bound goes: for a
record of twenty one-character labels the rendered rows have lengths
90, 19 and 0 — the first row is 90 characters, far beyond ~70, because
the internal counter charges each element `len + 2` while the rendered
text grows by `len + 3`, and the break only fires after the counter
has already reached 70. -/
theorem C8_counterexample :
    70 < ((splitOnChar '\n'
        ((typesString (List.replicate 20 "A")).getD "").data).headD []).length ∧
    (splitOnChar '\n'
        ((typesString (List.replicate 20 "A")).getD "").data).map List.length =
      [90, 19, 0] := by
  decide

/-- The state returned by `__writeToFile` is the input state, either
unchanged (error paths) or with only the timestamp refreshed. -/
theorem writeToFile_state_cases (master ioFail : Bool) (now : ℚ)
    (stb : List ℚ) (sb : List Int) (tb : List (List String))
    (s : TrajState) (w : World) :
    (LatticeTrajectory.writeToFile master ioFail now stb sb tb s w).2.1 = s ∨
    (LatticeTrajectory.writeToFile master ioFail now stb sb tb s w).2.1 =
      { s with time_last_dump := now } := by
  unfold LatticeTrajectory.writeToFile
  split
  · split
    · exact Or.inl rfl
    · dsimp only
      cases hc : (LatticeTrajectory.writeLoop (stb.zip (sb.zip tb))
          w.file w.written).2.2 with
      | none => simp [hc]
      | some e => simp [hc]
  · exact Or.inr rfl

/-- A `flush` preserves the equal-length invariant of the three
buffers. -/
theorem flush_aligned (master ioFail : Bool) (now : ℚ) (s : TrajState)
    (w : World) (h : buffersAligned s) :
    buffersAligned (LatticeTrajectory.flush master ioFail now s w).2.1 := by
  unfold LatticeTrajectory.flush
  split
  · have hc := writeToFile_state_cases master ioFail now
      s.simulation_time_buffer s.step_buffer s.types_buffer s w
    rcases hw : LatticeTrajectory.writeToFile master ioFail now
        s.simulation_time_buffer s.step_buffer s.types_buffer s w with
      ⟨err, s1, w1⟩
    rw [hw] at hc
    have hs1 : s1 = s ∨ s1 = { s with time_last_dump := now } := hc
    cases err with
    | none => exact ⟨rfl, rfl⟩
    | some e =>
      rcases hs1 with h1 | h1 <;> subst h1 <;> exact h
  · exact h

/-- An `append` preserves the equal-length invariant of the three
buffers. -/
theorem append_aligned (master ioFail : Bool)
    (sizeof : List (List String) → Nat) (now simulation_time : ℚ)
    (step : Int) (types : List String) (s : TrajState) (w : World)
    (h : buffersAligned s) :
    buffersAligned
      (LatticeTrajectory.append master ioFail sizeof now simulation_time
        step types s w).2.1 := by
  unfold LatticeTrajectory.append
  have h1 : buffersAligned
      { s with types_buffer := s.types_buffer ++ [types]
               simulation_time_buffer :=
                 s.simulation_time_buffer ++ [simulation_time]
               step_buffer := s.step_buffer ++ [step] } := by
    unfold buffersAligned at h ⊢
    simp [List.length_append, h.1, h.2]
  dsimp only
  split
  · exact flush_aligned master ioFail now _ w h1
  · exact h1

/-- A single driver call preserves the equal-length invariant. -/
theorem runOp_aligned (master ioFail : Bool)
    (sizeof : List (List String) → Nat) (op : Op) (s : TrajState)
    (w : World) (h : buffersAligned s) :
    buffersAligned (runOp master ioFail sizeof op s w).2.1 := by
  cases op with
  | appendOp now simulation_time step types =>
    exact append_aligned master ioFail sizeof now simulation_time step
      types s w h
  | flushOp now => exact flush_aligned master ioFail now s w h

/-- Any driver sequence preserves the equal-length invariant. -/
theorem runOps_aligned (master ioFail : Bool)
    (sizeof : List (List String) → Nat) (ops : List Op) :
    ∀ (s : TrajState) (w : World), buffersAligned s →
      buffersAligned (runOps master ioFail sizeof ops s w).2.1 := by
  induction ops with
  | nil => intro s w h; exact h
  | cons op rest ih =>
    intro s w h
    simp only [runOps]
    rcases hr : runOp master ioFail sizeof op s w with ⟨err, s1, w1⟩
    have h1 : buffersAligned s1 := by
      have hc := runOp_aligned master ioFail sizeof op s w h
      rwa [hr] at hc
    cases err with
    | none => exact ih s1 w1 h1
    | some e => exact h1

/-- C9: at every point of the writer's lifetime — after construction
and after any sequence of `append` and `flush` calls, hence in
particular after each single one — the three buffer sequences have
equal length, so entries at the same index form one appended record. -/
theorem C9_parallel_sequences (master ioFail : Bool)
    (sizeof : List (List String) → Nat) (fn : String)
    (sites : List (ℚ × ℚ × ℚ)) (mbs : Option Nat) (mbt : Option ℚ)
    (ct f0 : String) (ops : List Op) :
    buffersAligned
      (runOps master ioFail sizeof ops
        (LatticeTrajectory.init master fn sites mbs mbt ct f0).1
        (LatticeTrajectory.init master fn sites mbs mbt ct f0).2).2.1 :=
  runOps_aligned master ioFail sizeof ops _ _ ⟨rfl, rfl⟩

/-- A successful write loop appends exactly its records, in order, to
the record-level view of the file. -/
theorem writeLoop_written (recs : List (ℚ × Int × List String)) :
    ∀ (f : String) (wr : List (ℚ × Int × List String)),
      (LatticeTrajectory.writeLoop recs f wr).2.2 = none →
      (LatticeTrajectory.writeLoop recs f wr).2.1 = wr ++ recs := by
  induction recs with
  | nil => intro f wr _; simp [LatticeTrajectory.writeLoop]
  | cons r rest ih =>
    intro f wr h
    obtain ⟨t, n, ty⟩ := r
    simp only [LatticeTrajectory.writeLoop] at h ⊢
    cases hty : typesString ty with
    | none => simp [hty] at h
    | some str =>
      simp only [hty] at h ⊢
      rw [ih _ _ h]
      simp

/-- Outcome analysis of `__writeToFile`: on success the timestamp is
refreshed on every process and, on the master, exactly the zipped
records are appended to the file's record view; on failure the writer
state is returned untouched. -/
theorem writeToFile_spec (master ioFail : Bool) (now : ℚ)
    (stb : List ℚ) (sb : List Int) (tb : List (List String))
    (s : TrajState) (w : World) :
    ((LatticeTrajectory.writeToFile master ioFail now stb sb tb s w).1 = none →
      (LatticeTrajectory.writeToFile master ioFail now stb sb tb s w).2.1 =
        { s with time_last_dump := now } ∧
      (LatticeTrajectory.writeToFile master ioFail now stb sb tb s w).2.2.written =
        w.written ++ (if master then stb.zip (sb.zip tb) else [])) ∧
    (∀ e,
      (LatticeTrajectory.writeToFile master ioFail now stb sb tb s w).1 = some e →
      (LatticeTrajectory.writeToFile master ioFail now stb sb tb s w).2.1 = s) := by
  unfold LatticeTrajectory.writeToFile
  cases master with
  | false =>
    refine ⟨fun _ => ⟨rfl, by simp⟩, fun e h => by simp at h⟩
  | true =>
    cases ioFail with
    | true => exact ⟨fun h => by simp at h, fun e _ => rfl⟩
    | false =>
      dsimp only
      cases hc : (LatticeTrajectory.writeLoop (stb.zip (sb.zip tb))
          w.file w.written).2.2 with
      | none =>
        simp only [hc]
        refine ⟨fun _ => ⟨rfl, ?_⟩, fun e h => by simp at h⟩
        rw [writeLoop_written _ _ _ hc]
        simp
      | some e => exact ⟨fun h => by simp [hc] at h, fun e' h' => by simp [hc]⟩

/-- C3: a `flush` on a non-empty buffer is all-or-nothing for the
buffer.  On any error the returned writer state is exactly the input
state (no partial clearing, timestamp untouched); on success all three
buffer sequences are cleared and the timestamp is reset to the current
time on master and non-master alike, and on the master exactly the
zipped buffered records — all of them, by the alignment hypothesis —
are appended, in order, to the file's record view. -/
theorem C3_flush_all_or_nothing (master ioFail : Bool) (now : ℚ)
    (s : TrajState) (w : World)
    (hbuf : s.simulation_time_buffer ≠ [] ∧ s.step_buffer ≠ [] ∧
      s.types_buffer ≠ [])
    (halign : buffersAligned s) :
    ((LatticeTrajectory.flush master ioFail now s w).1 ≠ none →
      (LatticeTrajectory.flush master ioFail now s w).2.1 = s) ∧
    ((LatticeTrajectory.flush master ioFail now s w).1 = none →
      (LatticeTrajectory.flush master ioFail now s w).2.1.simulation_time_buffer = [] ∧
      (LatticeTrajectory.flush master ioFail now s w).2.1.step_buffer = [] ∧
      (LatticeTrajectory.flush master ioFail now s w).2.1.types_buffer = [] ∧
      (LatticeTrajectory.flush master ioFail now s w).2.1.time_last_dump = now ∧
      (LatticeTrajectory.flush master ioFail now s w).2.2.written =
        w.written ++ (if master then
          s.simulation_time_buffer.zip (s.step_buffer.zip s.types_buffer)
        else []) ∧
      (LatticeTrajectory.flush master ioFail now s w).2.2.written.length =
        w.written.length + (if master then s.step_buffer.length else 0)) := by
  have hcond : 0 < s.simulation_time_buffer.length ∧
      0 < s.step_buffer.length ∧ 0 < s.types_buffer.length :=
    ⟨List.length_pos.mpr hbuf.1, List.length_pos.mpr hbuf.2.1,
     List.length_pos.mpr hbuf.2.2⟩
  have hspec := writeToFile_spec master ioFail now s.simulation_time_buffer
    s.step_buffer s.types_buffer s w
  unfold LatticeTrajectory.flush
  rw [if_pos hcond]
  rcases hw : LatticeTrajectory.writeToFile master ioFail now
      s.simulation_time_buffer s.step_buffer s.types_buffer s w with
    ⟨err, s1, w1⟩
  rw [hw] at hspec
  cases err with
  | some e =>
    exact ⟨fun _ => hspec.2 e rfl, fun h => by simp at h⟩
  | none =>
    obtain ⟨hs1, hwr⟩ := hspec.1 rfl
    refine ⟨fun h => absurd rfl h, fun _ => ⟨rfl, rfl, rfl, ?_, ?_, ?_⟩⟩
    · show s1.time_last_dump = now
      rw [show s1 = { s with time_last_dump := now } from hs1]
    · exact hwr
    · show w1.written.length = _
      rw [show w1.written = _ from hwr]
      cases master with
      | false => simp
      | true =>
        simp [List.length_append, List.length_zip, halign.1, halign.2]

/-- Witness for C3 at a concrete one-record buffer on the master. -/
theorem C3_flush_all_or_nothing_witness :
    ((LatticeTrajectory.flush true false 5
        ⟨"t", 10, 30, [["A"]], [1], [2], 0⟩ ⟨"", [], []⟩).1 ≠ none →
      (LatticeTrajectory.flush true false 5
        ⟨"t", 10, 30, [["A"]], [1], [2], 0⟩ ⟨"", [], []⟩).2.1 =
        ⟨"t", 10, 30, [["A"]], [1], [2], 0⟩) ∧
    ((LatticeTrajectory.flush true false 5
        ⟨"t", 10, 30, [["A"]], [1], [2], 0⟩ ⟨"", [], []⟩).1 = none →
      (LatticeTrajectory.flush true false 5
        ⟨"t", 10, 30, [["A"]], [1], [2], 0⟩ ⟨"", [], []⟩).2.1.simulation_time_buffer = [] ∧
      (LatticeTrajectory.flush true false 5
        ⟨"t", 10, 30, [["A"]], [1], [2], 0⟩ ⟨"", [], []⟩).2.1.step_buffer = [] ∧
      (LatticeTrajectory.flush true false 5
        ⟨"t", 10, 30, [["A"]], [1], [2], 0⟩ ⟨"", [], []⟩).2.1.types_buffer = [] ∧
      (LatticeTrajectory.flush true false 5
        ⟨"t", 10, 30, [["A"]], [1], [2], 0⟩ ⟨"", [], []⟩).2.1.time_last_dump = 5 ∧
      (LatticeTrajectory.flush true false 5
        ⟨"t", 10, 30, [["A"]], [1], [2], 0⟩ ⟨"", [], []⟩).2.2.written =
        ([] : List (ℚ × Int × List String)) ++
          (if true then [(1 : ℚ)].zip ([(2 : Int)].zip [["A"]]) else []) ∧
      (LatticeTrajectory.flush true false 5
        ⟨"t", 10, 30, [["A"]], [1], [2], 0⟩ ⟨"", [], []⟩).2.2.written.length =
        ([] : List (ℚ × Int × List String)).length +
          (if true then [(2 : Int)].length else 0)) :=
  C3_flush_all_or_nothing true false 5
    ⟨"t", 10, 30, [["A"]], [1], [2], 0⟩ ⟨"", [], []⟩
    ⟨by decide, by decide, by decide⟩ ⟨rfl, rfl⟩

/-- A buffered record with an empty types list makes the write loop
raise the `IndexError` (possibly after earlier records were written). -/
theorem writeLoop_indexError (recs : List (ℚ × Int × List String)) :
    ∀ (f : String) (wr : List (ℚ × Int × List String)),
      (∃ r ∈ recs, r.2.2 = ([] : List String)) →
      (LatticeTrajectory.writeLoop recs f wr).2.2 = some TrajErr.indexError := by
  induction recs with
  | nil =>
    intro f wr h
    obtain ⟨r, hr, _⟩ := h
    exact absurd hr (List.not_mem_nil r)
  | cons r rest ih =>
    intro f wr h
    obtain ⟨t, n, ty⟩ := r
    simp only [LatticeTrajectory.writeLoop]
    cases hty : typesString ty with
    | none => simp [hty]
    | some str =>
      have hne : ty ≠ [] := by
        intro he
        subst he
        simp [typesString] at hty
      obtain ⟨r', hr', he'⟩ := h
      rcases List.mem_cons.mp hr' with rfl | hmem
      · exact absurd he' hne
      · simp only [hty]
        exact ih _ _ ⟨r', hmem, he'⟩

/-- If the three buffers have equal length, every element of the third
one appears as the third component of some zipped record. -/
theorem mem_zip3_of_mem (as : List ℚ) (bs : List Int)
    (cs : List (List String)) :
    ∀ (x : List String), as.length = bs.length → bs.length = cs.length →
      x ∈ cs → ∃ r ∈ as.zip (bs.zip cs), r.2.2 = x := by
  induction cs generalizing as bs with
  | nil => intro x _ _ hx; exact absurd hx (List.not_mem_nil x)
  | cons c cs ih =>
    intro x h1 h2 hx
    cases bs with
    | nil => simp at h2
    | cons b bs =>
      cases as with
      | nil => simp at h1
      | cons a as =>
        rcases List.mem_cons.mp hx with rfl | hmem
        · exact ⟨(a, b, x), List.mem_cons_self _ _, rfl⟩
        · obtain ⟨r, hr, he⟩ := ih as bs x
            (by simpa using h1) (by simpa using h2) hmem
          exact ⟨r, List.mem_cons_of_mem _ hr, he⟩

/-- C10: `append` accepts a record with an empty types list without
complaint (it is simply buffered), but once such a record is in the
buffer, a `flush` on the master fails with the `IndexError` from
`types[-1]` and the buffer is not cleared — the record can be buffered
but never successfully flushed. -/
theorem C10_empty_types_record (sizeof : List (List String) → Nat)
    (now na simulation_time : ℚ) (step : Int) (s0 s : TrajState)
    (w0 w : World)
    (hnotrig : ¬ (s0.max_buffer_size < sizeof (s0.types_buffer ++ [[]]) ∨
      s0.max_buffer_time < na - s0.time_last_dump))
    (halign : buffersAligned s)
    (hmem : ([] : List String) ∈ s.types_buffer) :
    (LatticeTrajectory.append true false sizeof na simulation_time step []
      s0 w0).1 = none ∧
    (LatticeTrajectory.append true false sizeof na simulation_time step []
      s0 w0).2.1.types_buffer = s0.types_buffer ++ [[]] ∧
    (LatticeTrajectory.flush true false now s w).1 =
      some TrajErr.indexError ∧
    (LatticeTrajectory.flush true false now s w).2.1 = s := by
  have hnotrig2 : ¬ (s0.max_buffer_size < sizeof (s0.types_buffer ++ [[]]) ∨
      elapsedGt na s0.time_last_dump s0.max_buffer_time = true) := by
    rw [elapsedGt_iff]
    exact hnotrig
  obtain ⟨e1, e2⟩ := halign
  have htb : 0 < s.types_buffer.length :=
    List.length_pos.mpr (List.ne_nil_of_mem hmem)
  have hcond : 0 < s.simulation_time_buffer.length ∧
      0 < s.step_buffer.length ∧ 0 < s.types_buffer.length :=
    ⟨by omega, by omega, htb⟩
  have hz : (LatticeTrajectory.writeLoop
      (s.simulation_time_buffer.zip (s.step_buffer.zip s.types_buffer))
      w.file w.written).2.2 = some TrajErr.indexError :=
    writeLoop_indexError _ _ _
      (mem_zip3_of_mem s.simulation_time_buffer s.step_buffer
        s.types_buffer [] e1 e2 hmem)
  have hspec := writeToFile_spec true false now s.simulation_time_buffer
    s.step_buffer s.types_buffer s w
  have h1 : (LatticeTrajectory.writeToFile true false now
      s.simulation_time_buffer s.step_buffer s.types_buffer s w).1 =
      some TrajErr.indexError := by
    unfold LatticeTrajectory.writeToFile
    dsimp only
    simp [hz]
  have h2 : (LatticeTrajectory.writeToFile true false now
      s.simulation_time_buffer s.step_buffer s.types_buffer s w).2.1 = s :=
    hspec.2 _ h1
  refine ⟨?_, ?_, ?_, ?_⟩
  · unfold LatticeTrajectory.append
    dsimp only
    rw [if_neg hnotrig2]
  · unfold LatticeTrajectory.append
    dsimp only
    rw [if_neg hnotrig2]
  · unfold LatticeTrajectory.flush
    rw [if_pos hcond]
    rcases hw : LatticeTrajectory.writeToFile true false now
        s.simulation_time_buffer s.step_buffer s.types_buffer s w with
      ⟨err, s1, w1⟩
    rw [hw] at h1
    have he : err = some TrajErr.indexError := h1
    subst he
    rfl
  · unfold LatticeTrajectory.flush
    rw [if_pos hcond]
    rcases hw : LatticeTrajectory.writeToFile true false now
        s.simulation_time_buffer s.step_buffer s.types_buffer s w with
      ⟨err, s1, w1⟩
    rw [hw] at h1 h2
    have he : err = some TrajErr.indexError := h1
    subst he
    exact h2

/-- Witness for C10: a writer whose buffer holds one record with zero
type labels. -/
theorem C10_empty_types_record_witness :
    (LatticeTrajectory.append true false (fun _ => 0) 1 2 3 []
      ⟨"t", 10, 30, [], [], [], 0⟩ ⟨"", [], []⟩).1 = none ∧
    (LatticeTrajectory.append true false (fun _ => 0) 1 2 3 []
      ⟨"t", 10, 30, [], [], [], 0⟩ ⟨"", [], []⟩).2.1.types_buffer =
      ([] : List (List String)) ++ [[]] ∧
    (LatticeTrajectory.flush true false 7
      ⟨"t", 10, 30, [[]], [2], [3], 1⟩ ⟨"", [], []⟩).1 =
      some TrajErr.indexError ∧
    (LatticeTrajectory.flush true false 7
      ⟨"t", 10, 30, [[]], [2], [3], 1⟩ ⟨"", [], []⟩).2.1 =
      ⟨"t", 10, 30, [[]], [2], [3], 1⟩ :=
  C10_empty_types_record (fun _ => 0) 7 1 2 3
    ⟨"t", 10, 30, [], [], [], 0⟩ ⟨"t", 10, 30, [[]], [2], [3], 1⟩
    ⟨"", [], []⟩ ⟨"", [], []⟩
    (by rw [not_or]; constructor
        · decide
        · norm_num)
    ⟨rfl, rfl⟩ (by decide)

/-- A non-empty types list always encodes successfully. -/
theorem typesString_isSome (ty : List String) (h : ty ≠ []) :
    ∃ str, typesString ty = some str := by
  unfold typesString
  cases hl : ty.getLast? with
  | none => exact absurd (List.getLast?_eq_none_iff.mp hl) h
  | some last => exact ⟨_, rfl⟩

/-- When every buffered record carries at least one type label, the
write loop finishes without error. -/
theorem writeLoop_no_error (recs : List (ℚ × Int × List String)) :
    ∀ (f : String) (wr : List (ℚ × Int × List String)),
      (∀ r ∈ recs, r.2.2 ≠ ([] : List String)) →
      (LatticeTrajectory.writeLoop recs f wr).2.2 = none := by
  induction recs with
  | nil => intro f wr _; simp [LatticeTrajectory.writeLoop]
  | cons r rest ih =>
    intro f wr h
    obtain ⟨t, n, ty⟩ := r
    obtain ⟨str, hstr⟩ := typesString_isSome ty (h _ (List.mem_cons_self _ _))
    simp only [LatticeTrajectory.writeLoop, hstr]
    exact ih _ _ (fun r hr => h r (List.mem_cons_of_mem _ hr))

/-- Projecting the step component out of the zipped buffers returns
the step buffer itself when the three buffers have equal length. -/
theorem map_step_zip3 (cs : List (List String)) :
    ∀ (as : List ℚ) (bs : List Int), as.length = bs.length →
      bs.length = cs.length →
      (as.zip (bs.zip cs)).map (fun r => r.2.1) = bs := by
  induction cs with
  | nil =>
    intro as bs _ h2
    have : bs = [] := List.length_eq_zero.mp (by simpa using h2)
    subst this
    simp
  | cons c cs ih =>
    intro as bs h1 h2
    cases bs with
    | nil => simp at h2
    | cons b bs =>
      cases as with
      | nil => simp at h1
      | cons a as =>
        simp only [List.zip_cons_cons, List.map_cons]
        rw [ih as bs (by simpa using h1) (by simpa using h2)]

/-- A `flush` on the master with aligned buffers whose records all
carry at least one label succeeds, leaves an empty (hence aligned)
buffer, and moves exactly the buffered step sequence to the end of the
written record view. -/
theorem flush_master_ok (now : ℚ) (s : TrajState) (w : World)
    (halign : buffersAligned s)
    (hty : ∀ ty ∈ s.types_buffer, ty ≠ ([] : List String)) :
    (LatticeTrajectory.flush true false now s w).1 = none ∧
    (LatticeTrajectory.flush true false now s w).2.1.step_buffer = [] ∧
    buffersAligned (LatticeTrajectory.flush true false now s w).2.1 ∧
    (∀ ty ∈ (LatticeTrajectory.flush true false now s w).2.1.types_buffer,
      ty ≠ ([] : List String)) ∧
    (LatticeTrajectory.flush true false now s w).2.2.written.map
        (fun r => r.2.1) =
      w.written.map (fun r => r.2.1) ++ s.step_buffer := by
  obtain ⟨e1, e2⟩ := halign
  by_cases hc : 0 < s.simulation_time_buffer.length ∧
      0 < s.step_buffer.length ∧ 0 < s.types_buffer.length
  · have hz : (LatticeTrajectory.writeLoop
        (s.simulation_time_buffer.zip (s.step_buffer.zip s.types_buffer))
        w.file w.written).2.2 = none := by
      apply writeLoop_no_error
      intro r hr
      obtain ⟨a, b, c⟩ := r
      exact hty c (List.of_mem_zip (List.of_mem_zip hr).2).2
    have h1 : (LatticeTrajectory.writeToFile true false now
        s.simulation_time_buffer s.step_buffer s.types_buffer s w).1 =
        none := by
      unfold LatticeTrajectory.writeToFile
      dsimp only
      simp [hz]
    obtain ⟨hs1, hwr⟩ := (writeToFile_spec true false now
      s.simulation_time_buffer s.step_buffer s.types_buffer s w).1 h1
    unfold LatticeTrajectory.flush
    rw [if_pos hc]
    rcases hw : LatticeTrajectory.writeToFile true false now
        s.simulation_time_buffer s.step_buffer s.types_buffer s w with
      ⟨err, s1, w1⟩
    rw [hw] at h1 hs1 hwr
    have he : err = none := h1
    subst he
    refine ⟨rfl, rfl, ⟨rfl, rfl⟩, by simp, ?_⟩
    show w1.written.map (fun r => r.2.1) = _
    rw [show w1.written = _ from hwr]
    rw [if_pos rfl, List.map_append, map_step_zip3 s.types_buffer
      s.simulation_time_buffer s.step_buffer e1 e2]
  · have hsb : s.step_buffer = [] := by
      apply List.length_eq_zero.mp
      omega
    unfold LatticeTrajectory.flush
    rw [if_neg hc]
    exact ⟨rfl, hsb, ⟨e1, e2⟩, hty, by simp [hsb]⟩

/-- The step numbers contributed by one driver call in front of a
sequence. -/
theorem opSteps_cons (op : Op) (rest : List Op) :
    opSteps (op :: rest) = opSteps [op] ++ opSteps rest := by
  cases op <;> simp [opSteps]

/-- One driver call on an error-free master run: no error is raised,
alignment and label non-emptiness are preserved, and the written step
sequence followed by the buffered step sequence grows by exactly the
call's steps; an explicit flush leaves an empty buffer. -/
theorem runOp_master_ok (sizeof : List (List String) → Nat) (op : Op)
    (s : TrajState) (w : World) (halign : buffersAligned s)
    (hty : ∀ ty ∈ s.types_buffer, ty ≠ ([] : List String))
    (hop : opTypesNonempty op = true) :
    (runOp true false sizeof op s w).1 = none ∧
    buffersAligned (runOp true false sizeof op s w).2.1 ∧
    (∀ ty ∈ (runOp true false sizeof op s w).2.1.types_buffer,
      ty ≠ ([] : List String)) ∧
    ((runOp true false sizeof op s w).2.2.written.map (fun r => r.2.1) ++
        (runOp true false sizeof op s w).2.1.step_buffer =
      w.written.map (fun r => r.2.1) ++ s.step_buffer ++ opSteps [op]) ∧
    (∀ nw, op = Op.flushOp nw →
      (runOp true false sizeof op s w).2.1.step_buffer = []) := by
  obtain ⟨e1, e2⟩ := halign
  cases op with
  | flushOp nw =>
    simp only [runOp]
    obtain ⟨h1, hsb, hal, hty2, hwr⟩ :=
      flush_master_ok nw s w ⟨e1, e2⟩ hty
    exact ⟨h1, hal, hty2, by simp [opSteps, hwr, hsb], fun _ _ => hsb⟩
  | appendOp now simulation_time step ty =>
    have htyne : ty ≠ [] := by
      simp only [opTypesNonempty, Bool.not_eq_true', List.isEmpty_eq_false]
        at hop
      exact hop
    simp only [runOp]
    unfold LatticeTrajectory.append
    dsimp only
    have halign1 : buffersAligned
        { s with types_buffer := s.types_buffer ++ [ty]
                 simulation_time_buffer :=
                   s.simulation_time_buffer ++ [simulation_time]
                 step_buffer := s.step_buffer ++ [step] } := by
      refine ⟨?_, ?_⟩ <;> simp [List.length_append, e1, e2]
    have hty1 : ∀ ty2 ∈ s.types_buffer ++ [ty], ty2 ≠ ([] : List String) := by
      intro ty2 h2
      rcases List.mem_append.mp h2 with h3 | h3
      · exact hty _ h3
      · rw [List.mem_singleton.mp h3]; exact htyne
    split
    · obtain ⟨h1, hsb, hal, hty2, hwr⟩ :=
        flush_master_ok now _ w halign1 hty1
      refine ⟨h1, hal, hty2, ?_, fun nw h => by simp at h⟩
      rw [hwr, hsb]
      simp [opSteps, List.append_assoc]
    · refine ⟨rfl, halign1, hty1, ?_, fun nw h => by simp at h⟩
      simp [opSteps, List.append_assoc]

/-- An error-free master run over any driver sequence: the written
step sequence followed by the still-buffered one is exactly the
initial one extended by the appended steps, and when the sequence ends
in a flush the buffer is empty. -/
theorem runOps_master_ok (sizeof : List (List String) → Nat)
    (ops : List Op) :
    ∀ (s : TrajState) (w : World), buffersAligned s →
      (∀ ty ∈ s.types_buffer, ty ≠ ([] : List String)) →
      (∀ op ∈ ops, opTypesNonempty op = true) →
      (runOps true false sizeof ops s w).1 = none ∧
      buffersAligned (runOps true false sizeof ops s w).2.1 ∧
      (∀ ty ∈ (runOps true false sizeof ops s w).2.1.types_buffer,
        ty ≠ ([] : List String)) ∧
      ((runOps true false sizeof ops s w).2.2.written.map (fun r => r.2.1) ++
          (runOps true false sizeof ops s w).2.1.step_buffer =
        w.written.map (fun r => r.2.1) ++ s.step_buffer ++ opSteps ops) ∧
      ((∃ nw, ops.getLast? = some (Op.flushOp nw)) →
        (runOps true false sizeof ops s w).2.1.step_buffer = []) := by
  induction ops with
  | nil =>
    intro s w halign hty _
    exact ⟨rfl, halign, hty, by simp [runOps, opSteps],
      fun ⟨nw, h⟩ => by simp at h⟩
  | cons op rest ih =>
    intro s w halign hty hops
    have h1 := runOp_master_ok sizeof op s w halign hty
      (hops op (List.mem_cons_self _ _))
    simp only [runOps]
    rcases hr : runOp true false sizeof op s w with ⟨err, s1, w1⟩
    rw [hr] at h1
    have he : err = none := h1.1
    subst he
    have hg := ih s1 w1 h1.2.1 h1.2.2.1
      (fun o ho => hops o (List.mem_cons_of_mem _ ho))
    refine ⟨hg.1, hg.2.1, hg.2.2.1, ?_, ?_⟩
    · rw [hg.2.2.2.1, opSteps_cons, ← List.append_assoc,
        h1.2.2.2.1]
    · rintro ⟨nw, hlast⟩
      cases rest with
      | nil =>
        have hop : op = Op.flushOp nw := by simpa using hlast
        have := h1.2.2.2.2 nw hop
        simpa using this
      | cons r2 rest2 =>
        exact hg.2.2.2.2 ⟨nw, by simpa using hlast⟩

/-- C4: for a driver sequence whose appends carry the steps
`0 .. N-1` in order (each with at least one type label), interleaved
with any flushes and ending in a flush, the error-free master run
records exactly the steps `0 .. N-1`, in order, in the file — wherever
the flushes occurred and whatever the size estimate does. -/
theorem C4_order_preservation (sizeof : List (List String) → Nat)
    (N : Nat) (ops : List Op) (fn : String)
    (sites : List (ℚ × ℚ × ℚ)) (mbs : Option Nat) (mbt : Option ℚ)
    (ct f0 : String)
    (hsteps : opSteps ops = (List.range N).map (fun i => (i : Int)))
    (hops : ∀ op ∈ ops, opTypesNonempty op = true)
    (hlast : ∃ nw, ops.getLast? = some (Op.flushOp nw)) :
    (runOps true false sizeof ops
      (LatticeTrajectory.init true fn sites mbs mbt ct f0).1
      (LatticeTrajectory.init true fn sites mbs mbt ct f0).2).1 = none ∧
    (runOps true false sizeof ops
      (LatticeTrajectory.init true fn sites mbs mbt ct f0).1
      (LatticeTrajectory.init true fn sites mbs mbt ct f0).2).2.2.written.map
        (fun r => r.2.1) =
      (List.range N).map (fun i => (i : Int)) := by
  have h := runOps_master_ok sizeof ops
    (LatticeTrajectory.init true fn sites mbs mbt ct f0).1
    (LatticeTrajectory.init true fn sites mbs mbt ct f0).2
    ⟨rfl, rfl⟩ (by intro ty h; simp [LatticeTrajectory.init] at h) hops
  refine ⟨h.1, ?_⟩
  have h4 := h.2.2.2.1
  rw [h.2.2.2.2 hlast, hsteps] at h4
  simpa [LatticeTrajectory.init] using h4

/-- Witness for C4: two appends with steps 0 and 1 followed by an
explicit flush. -/
theorem C4_order_preservation_witness :
    (runOps true false (fun _ => 0)
      [Op.appendOp 1 0 0 ["A"], Op.appendOp 2 1 1 ["B"], Op.flushOp 3]
      (LatticeTrajectory.init true "t" [(0, 0, 0)] none none "ct" "").1
      (LatticeTrajectory.init true "t" [(0, 0, 0)] none none "ct" "").2).1 =
      none ∧
    (runOps true false (fun _ => 0)
      [Op.appendOp 1 0 0 ["A"], Op.appendOp 2 1 1 ["B"], Op.flushOp 3]
      (LatticeTrajectory.init true "t" [(0, 0, 0)] none none "ct" "").1
      (LatticeTrajectory.init true "t" [(0, 0, 0)] none none "ct" "").2).2.2.written.map
        (fun r => r.2.1) =
      (List.range 2).map (fun i => (i : Int)) :=
  C4_order_preservation (fun _ => 0) 2
    [Op.appendOp 1 0 0 ["A"], Op.appendOp 2 1 1 ["B"], Op.flushOp 3]
    "t" [(0, 0, 0)] none none "ct" ""
    (by decide) (by decide) ⟨3, by decide⟩

/-- A trace containing a barrier still contains one after extension on
the right. -/
theorem containsBarrier_append_left (a b : List Event)
    (h : containsBarrier a = true) : containsBarrier (a ++ b) = true := by
  induction a with
  | nil => simp [containsBarrier] at h
  | cons e rest ih =>
    cases e with
    | barrier => simp [containsBarrier]
    | fileWrite =>
      simp only [containsBarrier] at h ⊢
      exact ih h

/-- The barrier discipline is closed under concatenation of traces. -/
theorem barrierAfterWrites_append (a b : List Event)
    (ha : barrierAfterWrites a = true) (hb : barrierAfterWrites b = true) :
    barrierAfterWrites (a ++ b) = true := by
  induction a with
  | nil => exact hb
  | cons e rest ih =>
    cases e with
    | barrier =>
      simp only [barrierAfterWrites] at ha ⊢
      exact ih ha
    | fileWrite =>
      simp only [barrierAfterWrites, Bool.and_eq_true] at ha ⊢
      exact ⟨containsBarrier_append_left rest b ha.1, ih ha.2⟩

/-- Barrier counting is additive over concatenation. -/
theorem barrierCount_append (a b : List Event) :
    barrierCount (a ++ b) = barrierCount a + barrierCount b := by
  induction a with
  | nil => simp [barrierCount]
  | cons e rest ih =>
    cases e with
    | fileWrite =>
      simp only [List.cons_append, barrierCount, List.append_eq, ih]
    | barrier =>
      simp only [List.cons_append, barrierCount, List.append_eq, ih]
      omega

/-- A successful master `__writeToFile` appends exactly one file-write
event followed by one barrier event. -/
theorem writeToFile_events_master (now : ℚ) (stb : List ℚ)
    (sb : List Int) (tb : List (List String)) (s : TrajState) (w : World)
    (h : (LatticeTrajectory.writeToFile true false now stb sb tb s w).1 =
      none) :
    (LatticeTrajectory.writeToFile true false now stb sb tb s w).2.2.events =
      w.events ++ [Event.fileWrite, Event.barrier] := by
  unfold LatticeTrajectory.writeToFile at h ⊢
  dsimp only at h ⊢
  cases hz : (LatticeTrajectory.writeLoop (stb.zip (sb.zip tb))
      w.file w.written).2.2 with
  | none => simp [hz]
  | some e => simp [hz] at h

/-- Mirror lemma for a single `flush`: when the master's flush
succeeds, it extends the master's event trace by a chunk that obeys
the barrier discipline, and the identical call on a non-master process
raises no error, produces the identical writer state, performs no file
or record side effect, and emits exactly the chunk's barriers. -/
theorem flush_mirror (now : ℚ) (s : TrajState) (wM wN : World)
    (hM : (LatticeTrajectory.flush true false now s wM).1 = none) :
    ∃ (k : Nat) (D : List Event),
      (LatticeTrajectory.flush true false now s wM).2.2.events =
        wM.events ++ D ∧
      barrierAfterWrites D = true ∧
      barrierCount D = k ∧
      LatticeTrajectory.flush false false now s wN =
        (none, (LatticeTrajectory.flush true false now s wM).2.1,
         { wN with events := wN.events ++ List.replicate k Event.barrier }) := by
  by_cases hc : 0 < s.simulation_time_buffer.length ∧
      0 < s.step_buffer.length ∧ 0 < s.types_buffer.length
  · have hspecM := writeToFile_spec true false now s.simulation_time_buffer
      s.step_buffer s.types_buffer s wM
    unfold LatticeTrajectory.flush at hM ⊢
    rw [if_pos hc] at hM ⊢
    rcases hw : LatticeTrajectory.writeToFile true false now
        s.simulation_time_buffer s.step_buffer s.types_buffer s wM with
      ⟨err, s1, w1⟩
    rw [hw] at hM hspecM
    cases err with
    | some e => simp at hM
    | none =>
      obtain ⟨hs1, _⟩ := hspecM.1 rfl
      have hev : w1.events = wM.events ++ [Event.fileWrite, Event.barrier] := by
        have h2 := writeToFile_events_master now s.simulation_time_buffer
          s.step_buffer s.types_buffer s wM (by rw [hw])
        rwa [hw] at h2
      refine ⟨1, [Event.fileWrite, Event.barrier], hev, by decide, by decide,
        ?_⟩
      rw [if_pos hc]
      unfold LatticeTrajectory.writeToFile
      dsimp only
      rw [show s1 = { s with time_last_dump := now } from hs1]
      rfl
  · unfold LatticeTrajectory.flush
    rw [if_neg hc, if_neg hc]
    exact ⟨0, [], by simp, rfl, rfl, by simp⟩

/-- Mirror lemma for a single driver call, lifting `flush_mirror` over
`append`'s trigger decision (which depends only on the writer state,
so master and non-master take the same branch). -/
theorem runOp_mirror (sizeof : List (List String) → Nat) (op : Op)
    (s : TrajState) (wM wN : World)
    (hM : (runOp true false sizeof op s wM).1 = none) :
    ∃ (k : Nat) (D : List Event),
      (runOp true false sizeof op s wM).2.2.events = wM.events ++ D ∧
      barrierAfterWrites D = true ∧
      barrierCount D = k ∧
      runOp false false sizeof op s wN =
        (none, (runOp true false sizeof op s wM).2.1,
         { wN with events := wN.events ++ List.replicate k Event.barrier }) := by
  cases op with
  | flushOp nw =>
    simp only [runOp] at hM ⊢
    exact flush_mirror nw s wM wN hM
  | appendOp now simulation_time step ty =>
    simp only [runOp] at hM ⊢
    unfold LatticeTrajectory.append at hM ⊢
    dsimp only at hM ⊢
    split at hM
    next hcond =>
      rw [if_pos hcond, if_pos hcond]
      exact flush_mirror now _ wM wN hM
    next hcond =>
      rw [if_neg hcond, if_neg hcond]
      exact ⟨0, [], by simp, rfl, rfl, by simp⟩

/-- Mirror lemma for a whole driver sequence: an error-free master run
and the identical non-master run go through the same writer states;
the non-master run raises no error, leaves its world's file and record
view untouched, and emits exactly the barrier events of the master's
event-chunk, which itself obeys the barrier discipline. -/
theorem runOps_mirror (sizeof : List (List String) → Nat)
    (ops : List Op) :
    ∀ (s : TrajState) (wM wN : World),
      (runOps true false sizeof ops s wM).1 = none →
      ∃ (k : Nat) (D : List Event),
        (runOps true false sizeof ops s wM).2.2.events = wM.events ++ D ∧
        barrierAfterWrites D = true ∧
        barrierCount D = k ∧
        runOps false false sizeof ops s wN =
          (none, (runOps true false sizeof ops s wM).2.1,
           { wN with events := wN.events ++ List.replicate k Event.barrier }) := by
  induction ops with
  | nil =>
    intro s wM wN _
    exact ⟨0, [], by simp [runOps], rfl, rfl, by simp [runOps]⟩
  | cons op rest ih =>
    intro s wM wN hM
    simp only [runOps] at hM ⊢
    have hstep := runOp_mirror sizeof op s wM wN
    rcases hr : runOp true false sizeof op s wM with ⟨err, s1, w1⟩
    rw [hr] at hM
    cases err with
    | some e => simp at hM
    | none =>
      obtain ⟨k1, D1, hev1, hbw1, hbc1, hNstep⟩ := hstep (by rw [hr])
      rw [hr] at hev1 hNstep
      obtain ⟨k2, D2, hev2, hbw2, hbc2, hNrest⟩ :=
        ih s1 w1 { wN with events := wN.events ++ List.replicate k1 Event.barrier } hM
      refine ⟨k1 + k2, D1 ++ D2, ?_,
        barrierAfterWrites_append _ _ hbw1 hbw2,
        by rw [barrierCount_append, hbc1, hbc2], ?_⟩
      · show (runOps true false sizeof rest s1 w1).2.2.events = _
        rw [hev2, show w1.events = wM.events ++ D1 from hev1,
          List.append_assoc]
      · rw [hNstep]
        show runOps false false sizeof rest s1 _ = _
        rw [hNrest]
        refine congrArg (fun w => ((none : Option TrajErr),
          (runOps true false sizeof rest s1 w1).2.1, w)) ?_
        show World.mk _ _ _ = World.mk _ _ _
        rw [List.append_assoc, ← List.replicate_add]

/-- Counting barriers in a pure-barrier trace. -/
theorem barrierCount_replicate (k : Nat) :
    barrierCount (List.replicate k Event.barrier) = k := by
  induction k with
  | zero => rfl
  | succ n ih => simp [List.replicate, barrierCount, ih]

/-- C6: master-only I/O.  If the master's run of a driver sequence
raises no error, then the identical run on a non-master process raises
no error either, evolves through the identical writer state, leaves
the non-master file-system completely untouched (its file keeps its
prior content and its record view stays empty, both from construction
on), emits only barrier events, and reaches exactly as many barriers
as the master, whose event trace has every file mutation followed by a
barrier. -/
theorem C6_master_only_io (sizeof : List (List String) → Nat)
    (ops : List Op) (fn : String) (sites : List (ℚ × ℚ × ℚ))
    (mbs : Option Nat) (mbt : Option ℚ) (ct f0 : String)
    (hM : (runOps true false sizeof ops
      (LatticeTrajectory.init true fn sites mbs mbt ct f0).1
      (LatticeTrajectory.init true fn sites mbs mbt ct f0).2).1 = none) :
    (runOps false false sizeof ops
      (LatticeTrajectory.init false fn sites mbs mbt ct f0).1
      (LatticeTrajectory.init false fn sites mbs mbt ct f0).2).1 = none ∧
    (runOps false false sizeof ops
      (LatticeTrajectory.init false fn sites mbs mbt ct f0).1
      (LatticeTrajectory.init false fn sites mbs mbt ct f0).2).2.1 =
      (runOps true false sizeof ops
        (LatticeTrajectory.init true fn sites mbs mbt ct f0).1
        (LatticeTrajectory.init true fn sites mbs mbt ct f0).2).2.1 ∧
    (runOps false false sizeof ops
      (LatticeTrajectory.init false fn sites mbs mbt ct f0).1
      (LatticeTrajectory.init false fn sites mbs mbt ct f0).2).2.2.file = f0 ∧
    (runOps false false sizeof ops
      (LatticeTrajectory.init false fn sites mbs mbt ct f0).1
      (LatticeTrajectory.init false fn sites mbs mbt ct f0).2).2.2.written = [] ∧
    (∀ e ∈ (runOps false false sizeof ops
      (LatticeTrajectory.init false fn sites mbs mbt ct f0).1
      (LatticeTrajectory.init false fn sites mbs mbt ct f0).2).2.2.events,
      e = Event.barrier) ∧
    barrierAfterWrites (runOps true false sizeof ops
      (LatticeTrajectory.init true fn sites mbs mbt ct f0).1
      (LatticeTrajectory.init true fn sites mbs mbt ct f0).2).2.2.events =
      true ∧
    barrierCount (runOps false false sizeof ops
      (LatticeTrajectory.init false fn sites mbs mbt ct f0).1
      (LatticeTrajectory.init false fn sites mbs mbt ct f0).2).2.2.events =
      barrierCount (runOps true false sizeof ops
        (LatticeTrajectory.init true fn sites mbs mbt ct f0).1
        (LatticeTrajectory.init true fn sites mbs mbt ct f0).2).2.2.events := by
  obtain ⟨k, D, hev, hbw, hbc, hN⟩ := runOps_mirror sizeof ops
    (LatticeTrajectory.init true fn sites mbs mbt ct f0).1
    (LatticeTrajectory.init true fn sites mbs mbt ct f0).2
    (LatticeTrajectory.init false fn sites mbs mbt ct f0).2 hM
  have key : runOps false false sizeof ops
      (LatticeTrajectory.init false fn sites mbs mbt ct f0).1
      (LatticeTrajectory.init false fn sites mbs mbt ct f0).2 =
      (none, (runOps true false sizeof ops
        (LatticeTrajectory.init true fn sites mbs mbt ct f0).1
        (LatticeTrajectory.init true fn sites mbs mbt ct f0).2).2.1,
       { (LatticeTrajectory.init false fn sites mbs mbt ct f0).2 with
           events := (LatticeTrajectory.init false fn sites mbs mbt ct
             f0).2.events ++ List.replicate k Event.barrier }) := hN
  refine ⟨by rw [key], by rw [key], by rw [key]; rfl, by rw [key]; rfl,
    ?_, ?_, ?_⟩
  · rw [key]
    intro e he
    simp only [LatticeTrajectory.init] at he
    simp only [List.mem_append] at he
    rcases he with he | he
    · simpa using he
    · exact (List.eq_of_mem_replicate he)
  · rw [hev,
      show (LatticeTrajectory.init true fn sites mbs mbt ct f0).2.events =
        [Event.fileWrite, Event.barrier] from rfl]
    exact barrierAfterWrites_append _ _ (by decide) hbw
  · rw [key, hev,
      show (LatticeTrajectory.init false fn sites mbs mbt ct f0).2.events =
        [Event.barrier] from rfl,
      show (LatticeTrajectory.init true fn sites mbs mbt ct f0).2.events =
        [Event.fileWrite, Event.barrier] from rfl,
      barrierCount_append, barrierCount_append, barrierCount_replicate,
      hbc]
    simp [barrierCount]

/-- Witness for C6: one append and one explicit flush, master versus
non-master. -/
theorem C6_master_only_io_witness :
    (runOps false false (fun _ => 0)
      [Op.appendOp 1 0 0 ["A"], Op.flushOp 2]
      (LatticeTrajectory.init false "t" [(0, 0, 0)] none none "ct" "prev").1
      (LatticeTrajectory.init false "t" [(0, 0, 0)] none none "ct" "prev").2).1 = none ∧
    (runOps false false (fun _ => 0)
      [Op.appendOp 1 0 0 ["A"], Op.flushOp 2]
      (LatticeTrajectory.init false "t" [(0, 0, 0)] none none "ct" "prev").1
      (LatticeTrajectory.init false "t" [(0, 0, 0)] none none "ct" "prev").2).2.1 =
      (runOps true false (fun _ => 0)
        [Op.appendOp 1 0 0 ["A"], Op.flushOp 2]
        (LatticeTrajectory.init true "t" [(0, 0, 0)] none none "ct" "prev").1
        (LatticeTrajectory.init true "t" [(0, 0, 0)] none none "ct" "prev").2).2.1 ∧
    (runOps false false (fun _ => 0)
      [Op.appendOp 1 0 0 ["A"], Op.flushOp 2]
      (LatticeTrajectory.init false "t" [(0, 0, 0)] none none "ct" "prev").1
      (LatticeTrajectory.init false "t" [(0, 0, 0)] none none "ct" "prev").2).2.2.file = "prev" ∧
    (runOps false false (fun _ => 0)
      [Op.appendOp 1 0 0 ["A"], Op.flushOp 2]
      (LatticeTrajectory.init false "t" [(0, 0, 0)] none none "ct" "prev").1
      (LatticeTrajectory.init false "t" [(0, 0, 0)] none none "ct" "prev").2).2.2.written = [] ∧
    (∀ e ∈ (runOps false false (fun _ => 0)
      [Op.appendOp 1 0 0 ["A"], Op.flushOp 2]
      (LatticeTrajectory.init false "t" [(0, 0, 0)] none none "ct" "prev").1
      (LatticeTrajectory.init false "t" [(0, 0, 0)] none none "ct" "prev").2).2.2.events,
      e = Event.barrier) ∧
    barrierAfterWrites (runOps true false (fun _ => 0)
      [Op.appendOp 1 0 0 ["A"], Op.flushOp 2]
      (LatticeTrajectory.init true "t" [(0, 0, 0)] none none "ct" "prev").1
      (LatticeTrajectory.init true "t" [(0, 0, 0)] none none "ct" "prev").2).2.2.events
      = true ∧
    barrierCount (runOps false false (fun _ => 0)
      [Op.appendOp 1 0 0 ["A"], Op.flushOp 2]
      (LatticeTrajectory.init false "t" [(0, 0, 0)] none none "ct" "prev").1
      (LatticeTrajectory.init false "t" [(0, 0, 0)] none none "ct" "prev").2).2.2.events =
      barrierCount (runOps true false (fun _ => 0)
        [Op.appendOp 1 0 0 ["A"], Op.flushOp 2]
        (LatticeTrajectory.init true "t" [(0, 0, 0)] none none "ct" "prev").1
        (LatticeTrajectory.init true "t" [(0, 0, 0)] none none "ct" "prev").2).2.2.events :=
  C6_master_only_io (fun _ => 0) [Op.appendOp 1 0 0 ["A"], Op.flushOp 2]
    "t" [(0, 0, 0)] none none "ct" "prev" (by decide)

/-- The types-row loop only ever extends its accumulator on the right,
so a prefix of the accumulator factors out. -/
theorem typesLoop_append (ts : List String) :
    ∀ (a b : String) (rl : Nat),
      typesLoop ts (a ++ b) rl = a ++ typesLoop ts b rl := by
  induction ts with
  | nil => intro a b rl; rfl
  | cons t ts ih =>
    intro a b rl
    simp only [typesLoop]
    split
    · rw [show a ++ b ++ "\"" ++ t ++ "\"," ++ "\n" ++ indent14 =
          a ++ (b ++ "\"" ++ t ++ "\"," ++ "\n" ++ indent14) by
        simp [String.append_assoc], ih]
    · rw [show a ++ b ++ "\"" ++ t ++ "\"," =
          a ++ (b ++ "\"" ++ t ++ "\",") by simp [String.append_assoc], ih]

/-- The flat string built by `typesLoop` is the newline-join of the
row list built by `rowsLoop` from the same data. -/
theorem typesLoop_data (ts : List String) :
    ∀ (acc : String) (rl : Nat),
      (typesLoop ts acc rl).data = joinRows (rowsLoop ts acc.data rl) := by
  induction ts with
  | nil => intro acc rl; simp [typesLoop, rowsLoop, joinRows]
  | cons t ts ih =>
    intro acc rl
    simp only [typesLoop, rowsLoop]
    split
    · rw [typesLoop_append ts (acc ++ "\"" ++ t ++ "\"," ++ "\n") indent14 14]
      show (acc ++ "\"" ++ t ++ "\"," ++ "\n" ++ typesLoop ts indent14 14).data = _
      rw [String.data_append, String.data_append, String.data_append,
        String.data_append, String.data_append, ih]
      simp [joinRows, List.append_assoc]
    · rw [ih]
      refine congrArg joinRows (congrArg (fun x => rowsLoop ts x _) ?_)
      rw [String.data_append, String.data_append, String.data_append]
      simp [List.append_assoc]

/-- A completed row always ends with the comma of its last quoted
element. -/
theorem getLast?_quote_chunk (cur : List Char) (t : String) :
    (cur ++ ('"' :: (t.data ++ ['"', ',']))).getLast? = some ',' := by
  rw [show ('"' :: (t.data ++ ['"', ','])) =
      ('"' :: t.data ++ ['"']) ++ [','] by simp,
    ← List.append_assoc, List.getLast?_concat]

/-- The rendered chunk of one element introduces no newline. -/
theorem newline_not_mem_chunk (cur : List Char) (t : String)
    (hcnl : ('\n' : Char) ∉ cur) (htnl : ('\n' : Char) ∉ t.data) :
    ('\n' : Char) ∉ cur ++ ('"' :: (t.data ++ ['"', ','])) := by
  intro h
  rcases List.mem_append.mp h with h1 | h1
  · exact hcnl h1
  · rcases List.mem_cons.mp h1 with h2 | h2
    · simp at h2
    · rcases List.mem_append.mp h2 with h3 | h3
      · exact htnl h3
      · simp at h3

/-- Invariant of the row loop.  Starting from an open row `cur` whose
length is the internal counter `rl` plus one character per element
already in the row (`e`), with the counter below the 70 threshold and
every remaining label of length between 1 and `L` and newline-free:
every completed row is between 70 and `90 + L` characters long, ends
with a comma and holds no newline; the final open row holds no newline
and is at most 87 characters; the first row extends `cur` and every
later row extends the 14-space indent; and stripping the indents and
concatenating all rows restores `cur` followed by the quoted,
comma-separated labels. -/
theorem rowsLoop_spec (L : Nat) (ts : List String) :
    ∀ (cur : List Char) (rl e : Nat),
      cur.length = rl + e →
      14 + 3 * e ≤ rl →
      rl ≤ 69 →
      (∀ t ∈ ts, 1 ≤ t.length ∧ t.length ≤ L) →
      (∀ t ∈ ts, ('\n' : Char) ∉ t.data) →
      ('\n' : Char) ∉ cur →
      (∀ r ∈ (rowsLoop ts cur rl).1,
        (70 ≤ r.length ∧ r.length ≤ 90 + L) ∧ r.getLast? = some ',' ∧
          ('\n' : Char) ∉ r) ∧
      (('\n' : Char) ∉ (rowsLoop ts cur rl).2 ∧
        (rowsLoop ts cur rl).2.length ≤ 87) ∧
      cur <+: (((rowsLoop ts cur rl).1 ++
        [(rowsLoop ts cur rl).2]).headD []) ∧
      (∀ r ∈ ((rowsLoop ts cur rl).1 ++
        [(rowsLoop ts cur rl).2]).drop 1, indent14.data <+: r) ∧
      stripJoinRows ((rowsLoop ts cur rl).1 ++ [(rowsLoop ts cur rl).2]) =
        cur ++ quotedCommas ts := by
  induction ts with
  | nil =>
    intro cur rl e hcur h14 h69 _ _ hcnl
    refine ⟨by simp [rowsLoop], ⟨by simpa [rowsLoop] using hcnl, ?_⟩,
      ?_, ?_, ?_⟩
    · show cur.length ≤ 87
      omega
    · show cur <+: cur
      exact List.prefix_refl cur
    · intro r hr
      simp [rowsLoop] at hr
    · simp [rowsLoop, stripJoinRows, quotedCommas]
  | cons t ts ih =>
    intro cur rl e hcur h14 h69 hts hnl hcnl
    have htlen := hts t (List.mem_cons_self _ _)
    have htnl := hnl t (List.mem_cons_self _ _)
    simp only [rowsLoop]
    split
    next h70 =>
      rcases hout : rowsLoop ts indent14.data 14 with ⟨rs, c⟩
      have ihr := ih indent14.data 14 0 (by decide) (by decide) (by decide)
        (fun u hu => hts u (List.mem_cons_of_mem _ hu))
        (fun u hu => hnl u (List.mem_cons_of_mem _ hu))
        (by decide)
      rw [hout] at ihr
      obtain ⟨i1, ⟨i2, i3⟩, i4, i5, i6⟩ := ihr
      have hdl : t.data.length = t.length := rfl
      have hcur1len : (cur ++ ('"' :: (t.data ++ ['"', ',']))).length =
          cur.length + t.length + 3 := by
        simp only [List.length_append, List.length_cons, List.length_nil]
        omega
      refine ⟨?_, ⟨i2, i3⟩, ?_, ?_, ?_⟩
      · intro r hr
        rcases List.mem_cons.mp hr with rfl | hr2
        · refine ⟨⟨?_, ?_⟩, getLast?_quote_chunk cur t, ?_⟩
          · rw [hcur1len]
            omega
          · rw [hcur1len]
            omega
          · exact newline_not_mem_chunk cur t hcnl htnl
        · exact i1 r hr2
      · show cur <+: _
        simp only [List.cons_append, List.headD_cons]
        exact List.prefix_append cur _
      · intro r hr
        simp only [List.cons_append, List.drop_succ_cons,
          List.drop_zero] at hr
        cases hrs : rs with
        | nil =>
          subst hrs
          have hrc : r = c := by simpa using hr
          subst hrc
          simpa using i4
        | cons r0 rs2 =>
          subst hrs
          rcases List.mem_cons.mp (by simpa using hr :
              r ∈ r0 :: (rs2 ++ [c])) with rfl | hr2
          · simpa using i4
          · exact i5 r (by simpa using hr2)
      · show stripJoinRows
          ((cur ++ ('"' :: (t.data ++ ['"', ',']))) :: (rs ++ [c])) = _
        cases hrs : rs with
        | nil =>
          subst hrs
          have hc : c = indent14.data ++ quotedCommas ts := by
            simpa [stripJoinRows] using i6
          simp only [stripJoinRows, List.nil_append, List.map_cons,
            List.map_nil, List.flatten_cons, List.flatten_nil,
            List.append_nil]
          rw [hc, show (14 : Nat) = indent14.data.length from rfl,
            List.drop_left]
          simp [quotedCommas, List.append_assoc]
        | cons r0 rs2 =>
          subst hrs
          have h14r0 : 14 ≤ r0.length := by
            have := (i1 r0 (List.mem_cons_self _ _)).1.1
            omega
          have hstrip : r0 ++ ((rs2 ++ [c]).map (List.drop 14)).flatten =
              indent14.data ++ quotedCommas ts := by
            simpa [stripJoinRows] using i6
          simp only [stripJoinRows, List.cons_append, List.map_cons,
            List.flatten_cons]
          have hX : List.drop 14 r0 ++
              ((rs2 ++ [c]).map (List.drop 14)).flatten =
              quotedCommas ts := by
            rw [← List.drop_append_of_le_length h14r0, hstrip,
              show (14 : Nat) = indent14.data.length from rfl,
              List.drop_left]
          rw [hX]
          simp [quotedCommas, List.append_assoc]
    next h70 =>
      have ihr := ih (cur ++ ('"' :: (t.data ++ ['"', ','])))
        (rl + t.length + 2) (e + 1)
        (by have hdl : t.data.length = t.length := rfl
            simp only [List.length_append, List.length_cons,
              List.length_nil]
            omega)
        (by omega)
        (by omega)
        (fun u hu => hts u (List.mem_cons_of_mem _ hu))
        (fun u hu => hnl u (List.mem_cons_of_mem _ hu))
        (newline_not_mem_chunk cur t hcnl htnl)
      refine ⟨ihr.1, ihr.2.1, ?_, ihr.2.2.2.1, ?_⟩
      · exact (List.prefix_append cur _).trans ihr.2.2.1
      · rw [ihr.2.2.2.2]
        simp [quotedCommas, List.append_assoc]

/-- Splitting a separator-free list is the identity. -/
theorem splitOnChar_of_not_mem (c : Char) (l : List Char) (h : c ∉ l) :
    splitOnChar c l = [l] := by
  induction l with
  | nil => rfl
  | cons x xs ih =>
    have hx : ¬ x = c := fun he => h (he ▸ List.mem_cons_self _ _)
    have hxs : c ∉ xs := fun hm => h (List.mem_cons_of_mem _ hm)
    simp only [splitOnChar, if_neg hx, ih hxs]

/-- Splitting peels off a leading separator-free segment. -/
theorem splitOnChar_append_cons (c : Char) (l rest : List Char)
    (h : c ∉ l) :
    splitOnChar c (l ++ c :: rest) = l :: splitOnChar c rest := by
  induction l with
  | nil => simp [splitOnChar]
  | cons x xs ih =>
    have hx : ¬ x = c := fun he => h (he ▸ List.mem_cons_self _ _)
    have hxs : c ∉ xs := fun hm => h (List.mem_cons_of_mem _ hm)
    simp only [List.cons_append, splitOnChar, if_neg hx, List.append_eq,
      ih hxs]

/-- Splitting on newlines inverts the newline-join of rows. -/
theorem splitOnChar_joinAll (rows : List (List Char)) (tail : List Char)
    (hrows : ∀ r ∈ rows, ('\n' : Char) ∉ r)
    (htail : ('\n' : Char) ∉ tail) :
    splitOnChar '\n' ((rows.map (· ++ ['\n'])).flatten ++ tail) =
      rows ++ [tail] := by
  induction rows with
  | nil => simpa using splitOnChar_of_not_mem '\n' tail htail
  | cons r rows ih =>
    simp only [List.map_cons, List.flatten_cons, List.append_assoc]
    rw [show ['\n'] ++ ((rows.map (· ++ ['\n'])).flatten ++ tail) =
        '\n' :: ((rows.map (· ++ ['\n'])).flatten ++ tail) from rfl,
      splitOnChar_append_cons _ _ _ (hrows r (List.mem_cons_self _ _)),
      ih (fun u hu => hrows u (List.mem_cons_of_mem _ hu))]
    rfl

/-- The digit characters used by `Nat.repr` are never a newline. -/
theorem digitChar_ne_newline (n : Nat) : Nat.digitChar n ≠ '\n' := by
  match n with
  | 0 | 1 | 2 | 3 | 4 | 5 | 6 | 7 | 8 | 9 | 10 | 11 | 12 | 13 | 14 | 15 =>
    decide
  | (m + 16) => simp [Nat.digitChar]

/-- The digit accumulator of `Nat.repr` never produces a newline. -/
theorem toDigitsCore_ne_newline (b : Nat) (fuel : Nat) :
    ∀ (n : Nat) (acc : List Char), (∀ c ∈ acc, c ≠ '\n') →
      ∀ c ∈ Nat.toDigitsCore b fuel n acc, c ≠ '\n' := by
  induction fuel with
  | zero =>
    intro n acc hacc c hc
    exact hacc c hc
  | succ fuel ih =>
    intro n acc hacc c hc
    simp only [Nat.toDigitsCore] at hc
    have hacc2 : ∀ c ∈ Nat.digitChar (n % b) :: acc, c ≠ '\n' := by
      intro c2 hc2
      rcases List.mem_cons.mp hc2 with rfl | hm
      · exact digitChar_ne_newline _
      · exact hacc _ hm
    split at hc
    · exact hacc2 c hc
    · exact ih _ _ hacc2 c hc

/-- The decimal rendering of a natural number holds no newline. -/
theorem natRepr_ne_newline (n : Nat) :
    ∀ c ∈ (Nat.repr n).data, c ≠ '\n' := by
  intro c hc
  exact toDigitsCore_ne_newline 10 (n + 1) n [] (by simp) c hc

/-- The decimal rendering of an integer holds no newline. -/
theorem intRepr_ne_newline (n : Int) :
    ∀ c ∈ (Int.repr n).data, c ≠ '\n' := by
  cases n with
  | ofNat m => exact natRepr_ne_newline m
  | negSucc m =>
    intro c hc
    have hd : (Int.repr (Int.negSucc m)).data =
        '-' :: (Nat.repr (m + 1)).data := by
      show (("-" ++ Nat.repr (m + 1)) : String).data = _
      rw [String.data_append]
      rfl
    rw [hd] at hc
    rcases List.mem_cons.mp hc with rfl | hm
    · decide
    · exact natRepr_ne_newline _ c hm

/-- A newline-free character list has newline-count zero. -/
theorem count_newline_zero (l : List Char) (h : ∀ c ∈ l, c ≠ '\n') :
    l.count '\n' = 0 :=
  List.count_eq_zero.mpr (fun hm => h _ hm rfl)

/-- The fixed-point rendering of a rational holds no newline. -/
theorem fmt6_ne_newline (q : ℚ) : ∀ c ∈ (fmt6 q).data, c ≠ '\n' := by
  intro c hc
  unfold fmt6 at hc
  dsimp only at hc
  rw [String.data_append, String.data_append, String.data_append] at hc
  rcases List.mem_append.mp hc with h1 | h1
  · rcases List.mem_append.mp h1 with h2 | h2
    · rcases List.mem_append.mp h2 with h3 | h3
      · revert h3
        split
        · intro h3
          have : c = '-' := by simpa using h3
          subst this
          decide
        · intro h3
          simp at h3
      · exact natRepr_ne_newline _ c h3
    · have : c = '.' := by simpa using h2
      subst this
      decide
  · unfold padZeros at h1
    rw [String.data_append] at h1
    rcases List.mem_append.mp h1 with h2 | h2
    · have : c = '0' := List.eq_of_mem_replicate (by simpa using h2)
      subst this
      decide
    · exact natRepr_ne_newline _ c h2

/-- Each flushed record's `times.append` statement is one line. -/
theorem encodeTimesLine_one_line (t : ℚ) :
    (encodeTimesLine t).data.count '\n' = 1 := by
  unfold encodeTimesLine
  rw [String.data_append, String.data_append, List.count_append,
    List.count_append,
    count_newline_zero _ (by decide),
    count_newline_zero _ (fmt6_ne_newline t)]
  decide

/-- Each flushed record's `steps.append` statement is one line. -/
theorem encodeStepsLine_one_line (n : Int) :
    (encodeStepsLine n).data.count '\n' = 1 := by
  unfold encodeStepsLine
  rw [String.data_append, String.data_append, List.count_append,
    List.count_append,
    count_newline_zero _ (by decide),
    count_newline_zero (toString n).data
      (fun c hc => intRepr_ne_newline n c hc)]
  decide

/-- Extending the final row on the right extends the stripped
concatenation on the right (the final row is only indent-stripped when
it is not the first row, in which case it is at least 14 characters). -/
theorem stripJoinRows_snoc_ext (rs : List (List Char)) (c x : List Char)
    (h : rs = [] ∨ 14 ≤ c.length) :
    stripJoinRows (rs ++ [c ++ x]) = stripJoinRows (rs ++ [c]) ++ x := by
  cases rs with
  | nil => simp [stripJoinRows, List.append_assoc]
  | cons r rest =>
    have h14 : 14 ≤ c.length := by
      rcases h with h | h
      · simp at h
      · exact h
    simp only [List.cons_append, stripJoinRows, List.map_append,
      List.map_cons, List.map_nil, List.flatten_append, List.flatten_cons,
      List.flatten_nil, List.append_nil]
    rw [List.drop_append_of_le_length h14]
    simp [List.append_assoc]

/-- The quoted-comma chunks of all but the last label, followed by the
quoted last label, make up the full comma-separated rendering. -/
theorem quotedJoin_decomp (ts : List String) :
    ∀ (t0 : String),
      quotedCommas (t0 :: ts).dropLast ++
        ('"' :: ((t0 :: ts).getLast (by simp)).data ++ ['"']) =
      (quotedJoin (t0 :: ts)).data := by
  induction ts with
  | nil =>
    intro t0
    simp [quotedCommas, quotedJoin, String.data_append]
  | cons t1 ts ih =>
    intro t0
    have hd : (t0 :: t1 :: ts).dropLast = t0 :: (t1 :: ts).dropLast := rfl
    have hl : (t0 :: t1 :: ts).getLast (by simp) =
        (t1 :: ts).getLast (by simp) := List.getLast_cons _
    rw [hd, hl]
    show (('"' :: (t0.data ++ ['"', ','])) ++ quotedCommas (t1 :: ts).dropLast) ++ _ = _
    rw [List.append_assoc, ih t1]
    show _ = (("\"" ++ t0 ++ "\"," ++ quotedJoin (t1 :: ts)) : String).data
    rw [String.data_append, String.data_append, String.data_append]
    simp [List.append_assoc]

/-- C8 amended: for every flushed record the encoder emits one
`times.append` line and one `steps.append` line, and a `types.append`
statement whose wrapping (for labels of length 1 to `L` without
newlines) has these properties: the statement ends in a final newline;
re-concatenating the rendered rows, with the 14-column continuation
indent stripped, restores the unbroken statement
`types.append(["t1",...,"tn"])` — so rows break only between elements,
never inside a quoted string, and the final element carries no
trailing separator; every continuation row is indented 14 columns,
aligning under the opening bracket; every wrapped (non-final) row is
at least 70 characters — the break fires only once the internal
counter, which undercounts each rendered element by one character,
reaches 70 — and ends with the comma of a completed element; and every
rendered row is at most `91 + L` characters (not ~70: the counter's
undercount and the unchecked final element push rows beyond 70). -/
theorem C8_amended (L : Nat) (t0 : String) (ts : List String)
    (hlen : ∀ t ∈ t0 :: ts, 1 ≤ t.length ∧ t.length ≤ L)
    (hnlf : ∀ t ∈ t0 :: ts, ('\n' : Char) ∉ t.data) :
    (∀ tm : ℚ, (encodeTimesLine tm).data.count '\n' = 1) ∧
    (∀ n : Int, (encodeStepsLine n).data.count '\n' = 1) ∧
    typesString (t0 :: ts) ≠ none ∧
    (splitOnChar '\n' ((typesString (t0 :: ts)).getD "").data).getLast? =
      some [] ∧
    stripJoinRows
      (splitOnChar '\n' ((typesString (t0 :: ts)).getD "").data).dropLast =
      ("types.append([" ++ quotedJoin (t0 :: ts) ++ "])").data ∧
    (∀ r ∈ ((splitOnChar '\n'
        ((typesString (t0 :: ts)).getD "").data).dropLast).dropLast,
      70 ≤ r.length ∧ r.getLast? = some ',') ∧
    (∀ r ∈ ((splitOnChar '\n'
        ((typesString (t0 :: ts)).getD "").data).dropLast).drop 1,
      indent14.data <+: r) ∧
    (∀ r ∈ splitOnChar '\n' ((typesString (t0 :: ts)).getD "").data,
      r.length ≤ 91 + L) := by
  have hne : (t0 :: ts) ≠ [] := by simp
  have hts : typesString (t0 :: ts) =
      some (typesLoop (t0 :: ts).dropLast "types.append([" 14 ++ "\"" ++
        (t0 :: ts).getLast hne ++ "\"])\n") := by
    unfold typesString
    rw [List.getLast?_eq_getLast _ hne]
  rcases hout : rowsLoop (t0 :: ts).dropLast "types.append([".data 14 with
    ⟨rs, c⟩
  have spec := rowsLoop_spec L (t0 :: ts).dropLast "types.append([".data
    14 0 (by decide) (by decide) (by decide)
    (fun u hu => hlen u (List.dropLast_subset _ hu))
    (fun u hu => hnlf u (List.dropLast_subset _ hu))
    (by decide)
  rw [hout] at spec
  obtain ⟨i1, ⟨i2, i3⟩, i4, i5, i6⟩ := spec
  dsimp only at i1 i2 i3 i4 i5 i6
  have hlastmem : (t0 :: ts).getLast hne ∈ t0 :: ts := List.getLast_mem hne
  have hlastlen := hlen _ hlastmem
  have hlastnl := hnlf _ hlastmem
  have hFRnl : ('\n' : Char) ∉ c ++ ('"' ::
      (((t0 :: ts).getLast hne).data ++ ['"', ']', ')'])) := by
    intro h
    rcases List.mem_append.mp h with h1 | h1
    · exact i2 h1
    · rcases List.mem_cons.mp h1 with h2 | h2
      · simp at h2
      · rcases List.mem_append.mp h2 with h3 | h3
        · exact hlastnl h3
        · simp at h3
  have hdata : ((typesString (t0 :: ts)).getD "").data =
      ((rs ++ [c ++ ('"' :: (((t0 :: ts).getLast hne).data ++
        ['"', ']', ')']))]).map (· ++ ['\n'])).flatten ++ [] := by
    rw [hts]
    show (typesLoop (t0 :: ts).dropLast "types.append([" 14 ++ "\"" ++
      (t0 :: ts).getLast hne ++ "\"])\n").data = _
    rw [String.data_append, String.data_append, String.data_append,
      typesLoop_data, hout]
    simp only [joinRows, List.map_append, List.map_cons, List.map_nil,
      List.flatten_append, List.flatten_cons, List.flatten_nil,
      List.append_nil, List.cons_append, List.nil_append,
      List.append_assoc]
  have hrows : splitOnChar '\n' ((typesString (t0 :: ts)).getD "").data =
      (rs ++ [c ++ ('"' :: (((t0 :: ts).getLast hne).data ++
        ['"', ']', ')']))]) ++ [[]] := by
    rw [hdata]
    refine splitOnChar_joinAll _ _ ?_ (by simp)
    intro r hr
    rcases List.mem_append.mp hr with h1 | h1
    · exact (i1 r h1).2.2
    · have hreq : r = c ++ ('"' ::
          (((t0 :: ts).getLast hne).data ++ ['"', ']', ')'])) := by
        simpa using h1
      rw [hreq]
      exact hFRnl
  have h14c : rs = [] ∨ 14 ≤ c.length := by
    cases hrs : rs with
    | nil => exact Or.inl rfl
    | cons r0 rs2 =>
      rw [hrs] at i5
      refine Or.inr ?_
      have hpre := i5 c (by simp)
      simpa using hpre.length_le
  refine ⟨encodeTimesLine_one_line, encodeStepsLine_one_line, ?_, ?_, ?_,
    ?_, ?_, ?_⟩
  · rw [hts]
    simp
  · rw [hrows]
    exact List.getLast?_concat _
  · rw [hrows, List.dropLast_concat, stripJoinRows_snoc_ext rs c _ h14c,
      i6]
    rw [show ("types.append([" ++ quotedJoin (t0 :: ts) ++ "])" :
        String).data = "types.append([".data ++
        ((quotedJoin (t0 :: ts)).data ++ "])".data) by
      rw [String.data_append, String.data_append, List.append_assoc]]
    rw [← quotedJoin_decomp ts t0]
    simp [List.append_assoc]
  · rw [hrows, List.dropLast_concat, List.dropLast_concat]
    intro r hr
    exact ⟨(i1 r hr).1.1, (i1 r hr).2.1⟩
  · rw [hrows, List.dropLast_concat]
    intro r hr
    cases hrs : rs with
    | nil =>
      rw [hrs] at hr
      simp at hr
    | cons r0 rs2 =>
      rw [hrs] at hr i5
      simp only [List.cons_append, List.drop_succ_cons, List.drop_zero]
        at hr
      rcases List.mem_append.mp hr with h1 | h1
      · exact i5 r (List.mem_append_left _ h1)
      · have hreq : r = c ++ ('"' ::
            (((t0 :: ts).getLast hne).data ++ ['"', ']', ')'])) := by
          simpa using h1
        rw [hreq]
        have hpc : indent14.data <+: c := i5 c (by simp)
        exact hpc.trans (List.prefix_append c _)
  · rw [hrows]
    intro r hr
    rcases List.mem_append.mp hr with h1 | h1
    · rcases List.mem_append.mp h1 with h2 | h2
      · have := (i1 r h2).1.2
        omega
      · have hreq : r = c ++ ('"' ::
            (((t0 :: ts).getLast hne).data ++ ['"', ']', ')'])) := by
          simpa using h2
        have hdl : ((t0 :: ts).getLast hne).data.length =
            ((t0 :: ts).getLast hne).length := rfl
        rw [hreq]
        simp only [List.length_append, List.length_cons, List.length_nil]
        have h2L := hlastlen.2
        omega
    · have hreq : r = [] := by simpa using h1
      rw [hreq]
      simp

/-- Witness for the amended C8 at a twenty-label record of
one-character labels (the counterexample's input). -/
theorem C8_amended_witness :
    (∀ tm : ℚ, (encodeTimesLine tm).data.count '\n' = 1) ∧
    (∀ n : Int, (encodeStepsLine n).data.count '\n' = 1) ∧
    typesString ("A" :: List.replicate 19 "A") ≠ none ∧
    (splitOnChar '\n'
      ((typesString ("A" :: List.replicate 19 "A")).getD "").data).getLast? =
      some [] ∧
    stripJoinRows (splitOnChar '\n'
      ((typesString ("A" :: List.replicate 19 "A")).getD "").data).dropLast =
      ("types.append([" ++ quotedJoin ("A" :: List.replicate 19 "A") ++
        "])").data ∧
    (∀ r ∈ ((splitOnChar '\n'
        ((typesString ("A" :: List.replicate 19 "A")).getD
          "").data).dropLast).dropLast,
      70 ≤ r.length ∧ r.getLast? = some ',') ∧
    (∀ r ∈ ((splitOnChar '\n'
        ((typesString ("A" :: List.replicate 19 "A")).getD
          "").data).dropLast).drop 1,
      indent14.data <+: r) ∧
    (∀ r ∈ splitOnChar '\n'
        ((typesString ("A" :: List.replicate 19 "A")).getD "").data,
      r.length ≤ 91 + 1) :=
  C8_amended 1 "A" (List.replicate 19 "A") (by decide) (by decide)
